import Mathlib

/-!
Verification development for the procedural voxel-world generator
(`three-js-minecraft`): a shallow embedding of the seeded PRNG, the 2-D
value-noise field, the chunk/column world store (`HousingWorld`), the
terrain/structure generator (`WorldGenerator`), the reference `OakTree`
structure, and the streaming `update` loop, together with theorems about
them.

Modelling conventions:
  * JS 32-bit integer bit patterns are modelled as `Nat` values `< 2^32`
    (two's-complement patterns and unsigned patterns agree modulo `2^32`,
    and every JS bitwise operator coerces through that pattern).
  * JS `number` arithmetic on noise values is modelled over `ℚ` (all the
    operations the claims mention are exact on the inputs involved).
  * The JS `Map`/`Set` of chunks is modelled as a function map keyed by the
    integer chunk-coordinate triple plus an insertion-ordered list for the
    dirty set; chunk objects are identified with their coordinate key, which
    is the invariant the store maintains (`getOrCreateChunk` always creates
    a chunk carrying its own key).
-/

namespace HousingCraft

/-- The 32-bit modulus `2^32` used by all JS int32 coercions. -/
def U32 : ℕ := 4294967296

/-- The integer core of one `mulberry32` PRNG step
(src/lib/client/world/WorldGenerator.ts): given the captured seed state,
returns the new state together with the raw 32-bit output `v` (the JS
expression `(t ^ (t >>> 14)) >>> 0`). -/
def m32v (s : ℕ) : ℕ × ℕ :=
  let s2 := (s + 0x6d2b79f5) % U32
  let t1 := ((Nat.xor s2 (s2 >>> 15)) * (Nat.lor s2 1)) % U32
  let m := ((Nat.xor t1 (t1 >>> 7)) * (Nat.lor t1 61)) % U32
  let t2 := Nat.xor ((t1 + m) % U32) t1
  (s2, Nat.xor t2 (t2 >>> 14))

/-- One step of the `mulberry32` PRNG stream: the new captured seed state
together with the produced value `v / 2^32 ∈ [0,1)`. -/
def m32 (s : ℕ) : ℕ × ℚ :=
  ((m32v s).1, ((m32v s).2 : ℚ) / (U32 : ℚ))

/-- Quintic easing curve `t*t*t*(t*(t*6-15)+10)`
(src/lib/client/world/WorldGenerator.ts, `fade`). -/
def fade (t : ℚ) : ℚ := t * t * t * (t * (t * 6 - 15) + 10)

/-- Linear interpolation `a + t*(b-a)`
(src/lib/client/world/WorldGenerator.ts, `lerp`). -/
def lerp (a b t : ℚ) : ℚ := a + t * (b - a)

/-- One Fisher-Yates swap step of the `ValueNoise` constructor: draw a
random index `j = ⌊rand * (i+1)⌋` and swap entries `i` and `j`. -/
def fyStep (ps : List ℕ × ℕ) (i : ℕ) : List ℕ × ℕ :=
  let st := m32 ps.2
  let j := (⌊st.2 * ((i : ℚ) + 1)⌋).toNat
  let a := ps.1.getD i 0
  let b := ps.1.getD j 0
  (((ps.1.set i b).set j a), st.1)

/-- The descending index list `[255, 254, ..., 1]` of the shuffle loop. -/
def fyIndices : List ℕ := (List.range 255).map (fun k => 255 - k)

/-- The shuffled 256-entry permutation table of `ValueNoise`, built from the
world seed (src/lib/client/world/WorldGenerator.ts, `ValueNoise`
constructor). -/
def noisePerm (seed : ℕ) : List ℕ :=
  (fyIndices.foldl fyStep (List.range 256, seed)).1

/-- A Nat-only form of `fyStep` (the drawn index `⌊rand * (i+1)⌋` written as
the integer division `v * (i+1) / 2^32`), provably equal to `fyStep` and
evaluable inside the kernel. -/
def fyStepN (ps : List ℕ × ℕ) (i : ℕ) : List ℕ × ℕ :=
  let mv := m32v ps.2
  let j := mv.2 * (i + 1) / U32
  let a := ps.1.getD i 0
  let b := ps.1.getD j 0
  (((ps.1.set i b).set j a), mv.1)

/-- Lookup in the duplicated 512-entry permutation table: the source sets
`perm[i] = p[i & 255]` for `i < 512`, so a lookup at `i` reads `p[i % 256]`. -/
def permAt (p : List ℕ) (i : ℕ) : ℕ := p.getD (i % 256) 0

/-- The JS index computation `Math.floor(x) & 255` (the `& 255` coercion of
an integer double has the bit pattern of its value mod `256`). -/
def maskFloor (x : ℚ) : ℕ := (⌊x⌋ % 256).toNat

/-- A corner value `perm[perm[i] + j] / 255` of `ValueNoise.sample`. -/
def ValueNoise.corner (seed : ℕ) (i j : ℕ) : ℚ :=
  (permAt (noisePerm seed) (permAt (noisePerm seed) i + j) : ℚ) / 255

/-- Smooth value noise (src/lib/client/world/WorldGenerator.ts,
`ValueNoise.sample`): bilinear interpolation of the four permutation-derived
corner values with the `fade` easing on both fractional offsets. -/
def ValueNoise.sample (seed : ℕ) (x z : ℚ) : ℚ :=
  lerp
    (lerp (ValueNoise.corner seed (maskFloor x) (maskFloor z))
      (ValueNoise.corner seed (maskFloor x + 1) (maskFloor z))
      (fade (x - ⌊x⌋)))
    (lerp (ValueNoise.corner seed (maskFloor x) (maskFloor z + 1))
      (ValueNoise.corner seed (maskFloor x + 1) (maskFloor z + 1))
      (fade (x - ⌊x⌋)))
    (fade (z - ⌊z⌋))

/-- Accumulator of the octave loop of `ValueNoise.octave`: given the number
of remaining octaves, the current amplitude and the current frequency, it
returns the pair `(value, maxValue)` accumulated by the loop. -/
def octaveAux (seed : ℕ) (x z pers : ℚ) : ℕ → ℚ → ℚ → ℚ × ℚ
  | 0, _, _ => (0, 0)
  | n + 1, amp, freq =>
    let rest := octaveAux seed x z pers n (amp * pers) (freq * 2)
    (ValueNoise.sample seed (x * freq) (z * freq) * amp + rest.1, amp + rest.2)

/-- Fractal octave noise (src/lib/client/world/WorldGenerator.ts,
`ValueNoise.octave`): the amplitude-weighted sum of `octaves` samples at
doubling frequency, divided by the total amplitude. -/
def ValueNoise.octave (seed : ℕ) (x z : ℚ) (octaves : ℕ) (pers scale : ℚ) : ℚ :=
  (octaveAux seed x z pers octaves 1 scale).1 /
    (octaveAux seed x z pers octaves 1 scale).2

/-- Deterministic integer hash of `(seed, chunkX, chunkZ)`
(src/lib/client/world/WorldGenerator.ts, `hashCoords`), used to seed the
per-chunk PRNG stream. -/
def hashCoords (seed : ℕ) (x z : ℤ) : ℕ :=
  let h0 := Nat.xor (seed % U32) 0x45d9f3b % U32
  let a1 := ((x * 1664525 + 1013904223).emod (U32 : ℤ)).toNat
  let h1 := (Nat.xor h0 a1 * 0x27d4eb2d) % U32
  let a2 := ((z * 1664525 + 1013904223).emod (U32 : ℤ)).toNat
  let h2 := (Nat.xor h1 a2 * 0x27d4eb2d) % U32
  Nat.xor h2 (h2 >>> 16)

/-- JS `Math.round`: round half toward positive infinity. -/
def jsRound (q : ℚ) : ℤ := ⌊q + 1 / 2⌋

-- ── Block IDs (src/lib/client/world/WorldGenerator.ts, `BLK`) ──

/-- Block id of air / the empty block. -/
def BLK.AIR : ℕ := 0
/-- Block id of stone. -/
def BLK.STONE : ℕ := 1
/-- Block id of grass. -/
def BLK.GRASS : ℕ := 8
/-- Block id of dirt. -/
def BLK.DIRT : ℕ := 9
/-- Block id of bedrock. -/
def BLK.BEDROCK : ℕ := 19
/-- Block id of sand. -/
def BLK.SAND : ℕ := 20
/-- Block id of an oak log (src, `OakTree`). -/
def OAK_LOG : ℕ := 26
/-- Block id of oak leaves (src, `OakTree`). -/
def OAK_LEAVES : ℕ := 30

-- ── Chunk ──

/-- Modelled from the spec: the `Chunk` class itself is not among the given
sources (only its callers are).  Per the spec a chunk owns a dense voxel
buffer of `CHUNK_SIZE³` block ids (zero-initialised, `CHUNK_SIZE = 32`), its
chunk coordinates, and a dirty flag; the buffer layout
`blocks[(lx*32+ly)*32+lz]` is fixed by the direct-write comment in
`WorldGenerator.generateChunk`. -/
structure Chunk where
  x : ℤ
  y : ℤ
  z : ℤ
  blocks : ℕ → ℕ
  isDirty : Bool

/-- The chunk edge length `Chunk.SIZE = 32`. -/
def Chunk.SIZE : ℤ := 32

/-- Buffer index of local cell `(lx, ly, lz)`: `(lx*32+ly)*32+lz`. -/
def blockIndex (lx ly lz : ℤ) : ℕ := ((lx * 32 + ly) * 32 + lz).toNat

/-- Modelled from the spec: `Chunk.setBlock` writes one cell of the dense
buffer at the layout index `(lx*32+ly)*32+lz`. -/
def Chunk.setBlock (c : Chunk) (lx ly lz : ℤ) (b : ℕ) : Chunk :=
  { c with blocks := fun i => if i = blockIndex lx ly lz then b else c.blocks i }

/-- Modelled from the spec: `Chunk.getBlock` reads one cell of the dense
buffer at the layout index `(lx*32+ly)*32+lz`. -/
def Chunk.getBlock (c : Chunk) (lx ly lz : ℤ) : ℕ :=
  c.blocks (blockIndex lx ly lz)

/-- A chunk-coordinate key `(cx, cy, cz)` of the chunk map (the source keys
its `Map` by the string `"cx,cy,cz"`, which is injective in the triple). -/
abbrev ChunkKey := ℤ × ℤ × ℤ

-- ── HousingWorld state ──

/-- The chunk & world store (the `HousingWorld` class): all loaded chunks
keyed by chunk coordinates, the insertion-ordered dirty set, and the set of
already-generated columns. -/
structure HousingWorld where
  chunks : ChunkKey → Option Chunk
  dirtyChunks : List ChunkKey
  generatedColumns : ℤ × ℤ → Bool

/-- The maximum world height `HousingWorld.HEIGHT = 256`. -/
def HousingWorld.HEIGHT : ℤ := 256

/-- `HousingWorld.isColumnGenerated`. -/
def HousingWorld.isColumnGenerated (w : HousingWorld) (cx cz : ℤ) : Bool :=
  w.generatedColumns (cx, cz)

/-- `HousingWorld.markColumnGenerated`. -/
def HousingWorld.markColumnGenerated (w : HousingWorld) (cx cz : ℤ) : HousingWorld :=
  { w with generatedColumns := fun c => if c = (cx, cz) then true else w.generatedColumns c }

/-- `HousingWorld.getChunk`. -/
def HousingWorld.getChunk (w : HousingWorld) (cx cy cz : ℤ) : Option Chunk :=
  w.chunks (cx, cy, cz)

/-- Store a chunk object back into the map at its key (the model of
mutating a chunk object that is aliased by the map). -/
def HousingWorld.putChunk (w : HousingWorld) (k : ChunkKey) (c : Chunk) : HousingWorld :=
  { w with chunks := fun k2 => if k2 = k then some c else w.chunks k2 }

/-- `HousingWorld.getOrCreateChunk`: return the loaded chunk at
`(cx, cy, cz)` or lazily create a fresh zeroed chunk there.  (The scene
attachment of the fresh mesh is rendering-side and out of model scope.) -/
def HousingWorld.getOrCreateChunk (w : HousingWorld) (cx cy cz : ℤ) : Chunk × HousingWorld :=
  match w.chunks (cx, cy, cz) with
  | some c => (c, w)
  | none =>
    let c : Chunk := ⟨cx, cy, cz, fun _ => 0, false⟩
    (c, w.putChunk (cx, cy, cz) c)

/-- `HousingWorld.markDirty` at a chunk key: set the chunk's dirty flag and
add it to the dirty set (JS `Set.add` appends only when not yet present). -/
def HousingWorld.markDirtyKey (w : HousingWorld) (k : ChunkKey) : HousingWorld :=
  { w with
    chunks := fun k2 =>
      if k2 = k then (w.chunks k).map (fun c => { c with isDirty := true }) else w.chunks k2,
    dirtyChunks := if k ∈ w.dirtyChunks then w.dirtyChunks else w.dirtyChunks ++ [k] }

/-- Chunk coordinate of a world coordinate: `Math.floor(v / Chunk.SIZE)`
(floor division, exact on integer doubles). -/
def chunkOf (v : ℤ) : ℤ := Int.fdiv v 32

/-- Local coordinate of a world coordinate: `v - chunkOf v * Chunk.SIZE`. -/
def localOf (v : ℤ) : ℤ := v - chunkOf v * 32

/-- `HousingWorld.set`: world-coordinate block write.  No-op outside the
vertical bounds; otherwise resolves the owning chunk by floor division
(creating it if absent), writes the cell and marks the chunk dirty. -/
def HousingWorld.set (w : HousingWorld) (x y z : ℤ) (b : ℕ) : HousingWorld :=
  if y < 0 ∨ 256 ≤ y then w
  else
    let cx := chunkOf x
    let cy := chunkOf y
    let cz := chunkOf z
    let res := w.getOrCreateChunk cx cy cz
    let c := res.1.setBlock (localOf x) (localOf y) (localOf z) b
    ((res.2.putChunk (cx, cy, cz) c).markDirtyKey (cx, cy, cz))

/-- `HousingWorld.get`: world-coordinate block read.  Returns the empty
block `0` outside the vertical bounds and for absent chunks; the second
component is the store state after the call (the read never mutates). -/
def HousingWorld.get (w : HousingWorld) (x y z : ℤ) : ℕ × HousingWorld :=
  if y < 0 ∨ 256 ≤ y then (0, w)
  else
    match w.getChunk (chunkOf x) (chunkOf y) (chunkOf z) with
    | none => (0, w)
    | some c => (c.getBlock (localOf x) (localOf y) (localOf z), w)

-- ── WorldGenerator ──

/-- A placeable structure implementation: `IStructure.generate` takes the
world, the origin, and the chunk-local PRNG state, and returns the updated
world together with the advanced PRNG state. -/
abbrev StructureFn := HousingWorld → ℤ → ℤ → ℤ → ℕ → HousingWorld × ℕ

/-- A `StructureEntry` of the generator catalog: a structure together with
its number of placement attempts per chunk column. -/
structure StructureEntry where
  structureFn : StructureFn
  attemptsPerChunk : ℕ

/-- The `WorldGenerator` state: seed, terrain parameters and the structure
catalog. -/
structure WorldGenerator where
  seed : ℕ
  seaLevel : ℤ
  minHeight : ℤ
  maxHeight : ℤ
  structures : List StructureEntry

/-- `WorldGenerator.getSurfaceY`: the terrain height at a world XZ
coordinate, `Math.round(minHeight + octave(wx, wz, 6, 0.5, 0.004) *
(maxHeight - minHeight))`. -/
def WorldGenerator.getSurfaceY (g : WorldGenerator) (wx wz : ℚ) : ℤ :=
  jsRound (g.minHeight + ValueNoise.octave g.seed wx wz 6 (1 / 2) (4 / 1000) *
    (g.maxHeight - g.minHeight))

/-- The per-column heightmap of `generateChunk`: local `(lx, lz) ↦
getSurfaceY (wx0+lx) (wz0+lz)`. -/
def heightsFn (g : WorldGenerator) (chunkX chunkZ : ℤ) : ℕ → ℕ → ℤ :=
  fun lx lz => g.getSurfaceY ((32 * chunkX + lx : ℤ) : ℚ) ((32 * chunkZ + lz : ℤ) : ℚ)

/-- The running maximum of the heightmap computed by `generateChunk`
(initialised to `0` as in the source). -/
def maxHeightOf (hm : ℕ → ℕ → ℤ) : ℤ :=
  (List.range 32).foldl
    (fun m lx => (List.range 32).foldl (fun m2 lz => max m2 (hm lx lz)) m) 0

/-- The vertical block classification of the terrain fill loop of
`generateChunk`: bedrock at `Y = 0`, stone strictly below `surface - 4`,
sand (beach) or dirt strictly below `surface`, and sand (beach) or grass at
the surface. -/
def terrainBlockFor (wy surface : ℤ) (isBeach : Bool) : ℕ :=
  if wy = 0 then BLK.BEDROCK
  else if wy < surface - 4 then BLK.STONE
  else if wy < surface then (if isBeach then BLK.SAND else BLK.DIRT)
  else (if isBeach then BLK.SAND else BLK.GRASS)

/-- The inner `wy` loop of the terrain fill for one local column: write the
cells `wy = cyMin + k` for `k < n` into the buffer at layout index
`(lx*32 + (wy - cyMin))*32 + lz`. -/
def fillColumnN (lx lz : ℕ) (cyMin surface : ℤ) (isBeach : Bool)
    (blocks : ℕ → ℕ) : ℕ → ℕ → ℕ
  | 0 => blocks
  | n + 1 =>
    let b := fillColumnN lx lz cyMin surface isBeach blocks n
    fun i => if i = blockIndex lx n lz then terrainBlockFor (cyMin + n) surface isBeach
      else b i

/-- One local column of the terrain fill in one chunk layer: skipped when
the surface lies below the layer, otherwise fills `wy` from `cyMin` to
`fillTop = min surface (cyMin + 31)`. -/
def fillLayerColumn (lx lz : ℕ) (cyMin surface : ℤ) (isBeach : Bool)
    (blocks : ℕ → ℕ) : ℕ → ℕ :=
  if surface < cyMin then blocks
  else fillColumnN lx lz cyMin surface isBeach blocks
    (min surface (cyMin + 31) + 1 - cyMin).toNat

/-- The terrain fill of one chunk layer: the direct buffer writes of the
`lx`/`lz` loops of `generateChunk`. -/
def fillLayer (c : Chunk) (hm : ℕ → ℕ → ℤ) (cyMin seaLevel : ℤ) : Chunk :=
  let b3 := (List.range 32).foldl
    (fun b lx => (List.range 32).foldl
      (fun b2 lz =>
        fillLayerColumn lx lz cyMin (hm lx lz)
          (decide (hm lx lz ≤ seaLevel + 2)) b2) b)
    c.blocks
  { c with blocks := b3 }

/-- One `cy` iteration of the terrain phase of `generateChunk`: skip layers
entirely above the column's maximum height, otherwise get-or-create the
layer chunk, fill it, store it back and mark it dirty. -/
def terrainLayerStep (seaLevel chunkX chunkZ : ℤ) (hm : ℕ → ℕ → ℤ)
    (w : HousingWorld) (cy : ℕ) : HousingWorld :=
  let cyMin : ℤ := 32 * cy
  if cyMin > maxHeightOf hm then w
  else
    let res := w.getOrCreateChunk chunkX cy chunkZ
    let c := fillLayer res.1 hm cyMin seaLevel
    ((res.2.putChunk (chunkX, (cy : ℤ), chunkZ) c).markDirtyKey (chunkX, (cy : ℤ), chunkZ))

/-- The terrain phase of `generateChunk`: the `cy` loop over the 8 vertical
chunk layers. -/
def terrainPhase (seaLevel chunkX chunkZ : ℤ) (hm : ℕ → ℕ → ℤ)
    (w : HousingWorld) : HousingWorld :=
  (List.range 8).foldl (terrainLayerStep seaLevel chunkX chunkZ hm) w

/-- One placement attempt of the structure phase of `generateChunk`: draw a
local `(lx, lz)` from the chunk PRNG stream, look up the precomputed surface
height, skip beach columns, otherwise place the structure at
`(wx, surface + 1, wz)`. -/
def structureAttempt (f : StructureFn) (hm : ℕ → ℕ → ℤ)
    (wx0 wz0 seaLevel : ℤ) (ws : HousingWorld × ℕ) : HousingWorld × ℕ :=
  let r1 := m32 ws.2
  let lx := (⌊r1.2 * 32⌋).toNat
  let r2 := m32 r1.1
  let lz := (⌊r2.2 * 32⌋).toNat
  let surfaceY := hm lx lz
  if surfaceY ≤ seaLevel + 2 then (ws.1, r2.1)
  else f ws.1 (wx0 + lx) (surfaceY + 1) (wz0 + lz) r2.1

/-- The structure phase of `generateChunk`: for every catalog entry perform
its placement attempts, threading the shared chunk PRNG stream. -/
def structuresPhase (entries : List StructureEntry) (hm : ℕ → ℕ → ℤ)
    (wx0 wz0 seaLevel : ℤ) (w : HousingWorld) (s : ℕ) : HousingWorld × ℕ :=
  entries.foldl
    (fun ws e => (List.range e.attemptsPerChunk).foldl
      (fun ws2 _ => structureAttempt e.structureFn hm wx0 wz0 seaLevel ws2) ws)
    (w, s)

/-- `WorldGenerator.generateChunk`: generate terrain and structures for one
chunk column.  Returns immediately when the column is already generated;
otherwise marks it generated first, fills the terrain of every relevant
layer, then runs the structure placement attempts with the PRNG stream
seeded from `hashCoords (seed, chunkX, chunkZ)`. -/
def WorldGenerator.generateChunk (g : WorldGenerator) (w : HousingWorld)
    (chunkX chunkZ : ℤ) : HousingWorld :=
  if w.isColumnGenerated chunkX chunkZ then w
  else
    let w1 := w.markColumnGenerated chunkX chunkZ
    let hm := heightsFn g chunkX chunkZ
    let w2 := terrainPhase g.seaLevel chunkX chunkZ hm w1
    (structuresPhase g.structures hm (32 * chunkX) (32 * chunkZ) g.seaLevel w2
      (hashCoords g.seed chunkX chunkZ)).1

-- ── OakTree (src/lib/client/world/structures/ IStructure.ts / OakTree.ts) ──

/-- The signed offset list `[-r, ..., r]` of the canopy loops. -/
def offsets (r : ℤ) : List ℤ :=
  (List.range (2 * r.toNat + 1)).map (fun (i : ℕ) => (i : ℤ) - r)

/-- The canopy ring phase of `OakTree.generate`: three leaf layers
(`dy ∈ {-1, 0, 1}`, radius 2/2/1, corners clipped), where a leaf is written
only when the target cell currently reads as air. -/
def canopyPhase (w : HousingWorld) (x leafBase z : ℤ) : HousingWorld :=
  [(-1 : ℤ), 0, 1].foldl
    (fun w2 dy =>
      let radius : ℤ := if dy = 1 then 1 else 2
      (offsets radius).foldl
        (fun w3 dx => (offsets radius).foldl
          (fun w4 dz =>
            if |dx| = radius ∧ |dz| = radius then w4
            else if (w4.get (x + dx) (leafBase + dy) (z + dz)).1 = BLK.AIR then
              w4.set (x + dx) (leafBase + dy) (z + dz) OAK_LEAVES
            else w4)
          w3)
        w2)
    w

/-- `OakTree.generate`: a trunk of height `4 + ⌊rand*3⌋` of oak logs, the
canopy ring phase, then the single unconditional cap leaf at
`leafBase + 2`. -/
def OakTree.generate : StructureFn := fun w x y z rand =>
  let r := m32 rand
  let height : ℤ := 4 + ⌊r.2 * 3⌋
  let w1 := (List.range height.toNat).foldl (fun w2 i => w2.set x (y + i) z OAK_LOG) w
  let leafBase := y + height
  let w2 := canopyPhase w1 x leafBase z
  (w2.set x (leafBase + 2) z OAK_LEAVES, r.1)

/-- A `WorldGenerator` with the constructor's defaults: `seaLevel = 62`,
`minHeight = 48`, `maxHeight = 96`, and one `OakTree` at 3 attempts per
chunk. -/
def mkGenerator (seed : ℕ) : WorldGenerator :=
  ⟨seed, 62, 48, 96, [⟨OakTree.generate, 3⟩]⟩

-- ── Streaming controller (HousingWorld.update) ──

/-- The ring-edge cells of radius `r` around the player column, in the
traversal order of the source (`dx` then `dz`, keeping only cells with
`|dx| = r ∨ |dz| = r`). -/
def ringCells (pcx pcz : ℤ) (r : ℕ) : List (ℤ × ℤ) :=
  (offsets r).foldr
    (fun dx acc =>
      ((offsets r).filterMap
        (fun dz => if |dx| = (r : ℤ) ∨ |dz| = (r : ℤ) then some (pcx + dx, pcz + dz) else none))
        ++ acc)
    []

/-- The full closest-first traversal list of the generation loop of
`update`: ring radii `0, 1, ..., renderDistance` in order. -/
def ringList (pcx pcz : ℤ) (renderDistance : ℕ) : List (ℤ × ℤ) :=
  (List.range (renderDistance + 1)).foldr (fun r acc => ringCells pcx pcz r ++ acc) []

/-- The budgeted generation loop of `update`: walk the traversal list,
generate every not-yet-generated column encountered, and stop as soon as
`maxGenPerFrame` columns have been generated. -/
def genLoop (g : WorldGenerator) (maxGen : ℕ) :
    HousingWorld → ℕ → List (ℤ × ℤ) → HousingWorld
  | w, _, [] => w
  | w, generated, c :: rest =>
    if w.isColumnGenerated c.1 c.2 then genLoop g maxGen w generated rest
    else
      let w2 := g.generateChunk w c.1 c.2
      if maxGen ≤ generated + 1 then w2 else genLoop g maxGen w2 (generated + 1) rest

/-- Whether a loaded chunk is beyond the unload limit from the player
column (the source's `Math.abs(chunk.x - pcx) > unloadLimit || ...`). -/
def farChunk (c : Chunk) (pcx pcz limit : ℤ) : Prop :=
  limit < |c.x - pcx| ∨ limit < |c.z - pcz|

instance (c : Chunk) (pcx pcz limit : ℤ) : Decidable (farChunk c pcx pcz limit) := by
  unfold farChunk; infer_instance

/-- The unload phase of `update`: remove every loaded chunk beyond
`renderDistance + 3` from the chunk map and from the dirty set (the visual
detach is rendering-side and out of model scope). -/
def unloadPhase (w : HousingWorld) (pcx pcz limit : ℤ) : HousingWorld :=
  { w with
    chunks := fun k => match w.chunks k with
      | some c => if farChunk c pcx pcz limit then none else some c
      | none => none,
    dirtyChunks := w.dirtyChunks.filter (fun k => match w.chunks k with
      | some c => decide (¬farChunk c pcx pcz limit)
      | none => true) }

/-- The loop body list of `HousingWorld.buildChunks`: clear the head dirty
chunk's flag (its remeshing is rendering-side), drop it from the dirty set,
and stop once `maxChunks` chunks have been built. -/
def buildAux (maxChunks : ℕ) : HousingWorld → List ChunkKey → ℕ → HousingWorld
  | w, [], _ => w
  | w, k :: rest, built =>
    let w2 : HousingWorld :=
      { w with
        chunks := fun k2 =>
          if k2 = k then (w.chunks k).map (fun c => { c with isDirty := false })
          else w.chunks k2,
        dirtyChunks := rest }
    if maxChunks ≤ built + 1 then w2 else buildAux maxChunks w2 rest (built + 1)

/-- `HousingWorld.buildChunks`: rebuild up to `maxChunks` dirty chunks,
clearing their dirty flags and leaving the remainder dirty. -/
def HousingWorld.buildChunks (w : HousingWorld) (maxChunks : ℕ) : HousingWorld :=
  buildAux maxChunks w w.dirtyChunks 0

/-- `HousingWorld.update`: one streaming tick.  Generate missing columns
closest-ring-first under the `maxGenPerFrame` budget, unload chunks beyond
`renderDistance + 3`, then build up to `maxBuildPerFrame` dirty chunks. -/
def HousingWorld.update (w : HousingWorld) (playerX playerZ : ℚ)
    (g : WorldGenerator) (renderDistance maxGenPerFrame maxBuildPerFrame : ℕ) :
    HousingWorld :=
  let pcx := ⌊playerX / 32⌋
  let pcz := ⌊playerZ / 32⌋
  let w1 := genLoop g maxGenPerFrame w 0 (ringList pcx pcz renderDistance)
  let w2 := unloadPhase w1 pcx pcz (renderDistance + 3)
  w2.buildChunks maxBuildPerFrame

/-- The empty store: no chunks, nothing dirty, no generated columns. -/
def emptyWorld : HousingWorld :=
  ⟨fun _ => none, [], fun _ => false⟩

/-- The loaded-chunk entries of `w` survive into `w2` with their coordinate
fields intact (their buffers and dirty flags may differ). -/
def ChunksPreserved (w w2 : HousingWorld) : Prop :=
  ∀ k c, w.chunks k = some c →
    ∃ c2, w2.chunks k = some c2 ∧ c2.x = c.x ∧ c2.y = c.y ∧ c2.z = c.z

/-- Both the generated-column set and the loaded-chunk entries (with their
coordinate fields) are preserved from `w` to `w2`. -/
def StorePreserved (w w2 : HousingWorld) : Prop :=
  w2.generatedColumns = w.generatedColumns ∧ ChunksPreserved w w2

/-- A structure implementation that only acts on the store through the
block accessors: it never touches the generated-column set and never
removes or re-coordinates a loaded chunk.  `OakTree.generate` satisfies
this (`oakTree_OK`). -/
def StructureOK (f : StructureFn) : Prop :=
  ∀ (w : HousingWorld) (x y z : ℤ) (s : ℕ), StorePreserved w (f w x y z s).1

/-- Chebyshev (ring) distance between two chunk columns. -/
def chebDist (a b : ℤ × ℤ) : ℕ := max (a.1 - b.1).natAbs (a.2 - b.2).natAbs

-- ═══ Theorems ═══

-- ── Shared arithmetic lemmas ──

lemma fdiv32_eq (a : ℤ) : Int.fdiv a 32 = a / 32 :=
  Int.fdiv_eq_ediv _ (by norm_num)

lemma set_oob (w : HousingWorld) (x y z : ℤ) (b : ℕ) (h : y < 0 ∨ 256 ≤ y) :
    w.set x y z b = w := by
  unfold HousingWorld.set
  rw [if_pos h]

lemma get_oob (w : HousingWorld) (x y z : ℤ) (h : y < 0 ∨ 256 ≤ y) :
    w.get x y z = (0, w) := by
  unfold HousingWorld.get
  rw [if_pos h]

lemma localOf_spec (v : ℤ) : chunkOf v * 32 + localOf v = v ∧ 0 ≤ localOf v ∧ localOf v < 32 := by
  simp only [localOf, chunkOf, fdiv32_eq]
  omega

/-- C4: world-to-chunk coordinate resolution is exact with floor semantics:
for every integer world coordinate `v` (including negative ones) the chunk
coordinate `chunkOf v = ⌊v / 32⌋` and local coordinate
`localOf v = v - chunkOf v * 32` computed by `HousingWorld.set` and
`HousingWorld.get` satisfy `chunkOf v * 32 + localOf v = v` and
`0 ≤ localOf v < 32`. -/
theorem C4_coordinate_resolution (v : ℤ) :
    chunkOf v * 32 + localOf v = v ∧ 0 ≤ localOf v ∧ localOf v < 32 :=
  localOf_spec v

/-- C5: out-of-vertical-bound accesses are sentinel / no-op: for `y < 0` or
`y ≥ 256`, `HousingWorld.get` returns the empty block `0` with the store
unchanged, and `HousingWorld.set` returns the store completely unchanged
(no chunk created, no voxel modified, nothing marked dirty). -/
theorem C5_out_of_bounds_noop (w : HousingWorld) (x y z : ℤ) (b : ℕ)
    (h : y < 0 ∨ 256 ≤ y) :
    w.set x y z b = w ∧ w.get x y z = (0, w) :=
  ⟨set_oob w x y z b h, get_oob w x y z h⟩

/-- Witness for C5 at the concrete inputs `y = -1` and `y = HEIGHT = 256`. -/
theorem C5_witness :
    (emptyWorld.set 5 (-1) 7 3 = emptyWorld ∧ emptyWorld.get 5 (-1) 7 = (0, emptyWorld)) ∧
    (emptyWorld.set 5 256 7 3 = emptyWorld ∧ emptyWorld.get 5 256 7 = (0, emptyWorld)) :=
  ⟨C5_out_of_bounds_noop emptyWorld 5 (-1) 7 3 (Or.inl (by norm_num)),
   C5_out_of_bounds_noop emptyWorld 5 256 7 3 (Or.inr (by norm_num))⟩

/-- C10: `HousingWorld.get` is read-only: the store after the call equals
the store before, a read of an absent chunk returns `0` without
materializing the chunk, and two consecutive calls with the same arguments
return the same value. -/
theorem C10_get_readonly (w : HousingWorld) (x y z : ℤ) :
    (w.get x y z).2 = w ∧
    (w.getChunk (chunkOf x) (chunkOf y) (chunkOf z) = none → (w.get x y z).1 = 0) ∧
    ((w.get x y z).2.get x y z).1 = (w.get x y z).1 := by
  have h2 : (w.get x y z).2 = w := by
    unfold HousingWorld.get
    split
    · rfl
    · split <;> rfl
  refine ⟨h2, ?_, by rw [h2]⟩
  intro hnone
  simp only [HousingWorld.get, hnone]
  split <;> rfl

/-- Witness for C10 at a concrete store and coordinates with the absent
chunk hypothesis discharged. -/
theorem C10_witness :
    (emptyWorld.get 1 2 3).2 = emptyWorld ∧ (emptyWorld.get 1 2 3).1 = 0 :=
  ⟨(C10_get_readonly emptyWorld 1 2 3).1,
   (C10_get_readonly emptyWorld 1 2 3).2.1 rfl⟩

/-- C2: the surface height is the stated deterministic function of the seed
and world coordinates: `getSurfaceY` equals
`round(minHeight + octave(wx, wz, 6, 0.5, 0.004) * (maxHeight - minHeight))`,
any two generators agreeing on seed and height range agree on every surface
height (the function has no other state), and with `minHeight = 48`,
`maxHeight = 96` a noise value of exactly `0.5` yields `72`. -/
theorem C2_getSurfaceY_formula :
    (∀ (g : WorldGenerator) (wx wz : ℚ),
      g.getSurfaceY wx wz =
        jsRound (g.minHeight + ValueNoise.octave g.seed wx wz 6 (1 / 2) (4 / 1000) *
          (g.maxHeight - g.minHeight))) ∧
    (∀ (g g2 : WorldGenerator) (wx wz : ℚ), g.seed = g2.seed → g.minHeight = g2.minHeight →
      g.maxHeight = g2.maxHeight → g.getSurfaceY wx wz = g2.getSurfaceY wx wz) ∧
    jsRound ((48 : ℚ) + (1 / 2) * ((96 : ℚ) - 48)) = 72 := by
  refine ⟨fun g wx wz => rfl, fun g g2 wx wz h1 h2 h3 => ?_, ?_⟩
  · unfold WorldGenerator.getSurfaceY
    rw [h1, h2, h3]
  · unfold jsRound
    norm_num

/-- Witness for C2: the determinism conjunct applied to two syntactically
equal default generators. -/
theorem C2_witness :
    (mkGenerator 12345).getSurfaceY 0 0 = (mkGenerator 12345).getSurfaceY 0 0 :=
  (C2_getSurfaceY_formula).2.1 (mkGenerator 12345) (mkGenerator 12345) 0 0 rfl rfl rfl

-- ── C6: noise boundedness (helper lemmas, amended theorem, counterexample) ──

lemma m32_snd (s : ℕ) : (m32 s).2 = ((m32v s).2 : ℚ) / (U32 : ℚ) := rfl

lemma floor_natCast_div_mul (a b n : ℕ) :
    ⌊((a : ℚ) / (b : ℚ)) * ((n : ℚ))⌋ = ((a * n / b : ℕ) : ℤ) := by
  rcases Nat.eq_zero_or_pos b with hb | hb
  · subst hb; simp
  have h1 : ((a : ℚ) / (b : ℚ)) * ((n : ℚ)) = ((a * n : ℕ) : ℚ) / ((b : ℕ) : ℚ) := by
    push_cast; ring
  rw [h1]
  have h2 : ⌊((a * n : ℕ) : ℚ) / ((b : ℕ) : ℚ)⌋₊ = a * n / b := Nat.floor_div_eq_div _ _
  have h3 : (0 : ℚ) ≤ ((a * n : ℕ) : ℚ) / ((b : ℕ) : ℚ) := by positivity
  have h4 : ⌊((a * n : ℕ) : ℚ) / ((b : ℕ) : ℚ)⌋.toNat = ⌊((a * n : ℕ) : ℚ) / ((b : ℕ) : ℚ)⌋₊ :=
    Int.floor_toNat _
  have h5 : (0 : ℤ) ≤ ⌊((a * n : ℕ) : ℚ) / ((b : ℕ) : ℚ)⌋ := Int.floor_nonneg.mpr h3
  omega

lemma fyStep_eq_fyStepN : fyStep = fyStepN := by
  funext ps i
  have h : (⌊(m32 ps.2).2 * ((i : ℚ) + 1)⌋).toNat = (m32v ps.2).2 * (i + 1) / U32 := by
    rw [m32_snd]
    have h0 : ((i : ℚ) + 1) = ((i + 1 : ℕ) : ℚ) := by push_cast; ring
    rw [h0, floor_natCast_div_mul]
    exact Int.toNat_natCast _
  simp only [fyStep, fyStepN, h]
  rfl

set_option maxRecDepth 40000 in
lemma noisePerm_12345 : noisePerm 12345 = [25, 27, 202, 81, 11, 156, 195, 79, 191, 104, 136, 5, 145, 194, 56, 212, 43, 180, 208, 210, 29, 34, 58, 137, 201, 185, 163, 44, 126, 226, 112, 224, 85, 159, 8, 33, 165, 21, 17, 51, 124, 207, 181, 98, 220, 68, 114, 168, 6, 221, 1, 71, 186, 179, 31, 238, 170, 239, 199, 26, 223, 215, 253, 64, 127, 153, 209, 102, 107, 66, 116, 67, 93, 162, 139, 150, 173, 103, 88, 86, 134, 65, 73, 94, 254, 60, 216, 32, 240, 40, 230, 187, 236, 20, 158, 57, 97, 204, 211, 227, 110, 189, 214, 174, 249, 130, 115, 213, 142, 228, 244, 12, 167, 121, 74, 50, 101, 111, 45, 169, 178, 243, 144, 125, 35, 251, 198, 9, 229, 83, 188, 246, 80, 13, 48, 100, 131, 90, 3, 138, 232, 23, 89, 84, 118, 160, 49, 120, 38, 61, 42, 53, 4, 24, 70, 154, 39, 37, 225, 76, 192, 157, 132, 155, 99, 109, 117, 96, 196, 92, 161, 218, 182, 166, 133, 52, 135, 41, 164, 148, 30, 91, 197, 108, 219, 55, 143, 234, 233, 69, 15, 193, 141, 82, 147, 36, 2, 28, 177, 255, 172, 19, 62, 146, 106, 222, 54, 95, 175, 123, 248, 119, 7, 200, 241, 129, 10, 176, 149, 0, 46, 77, 252, 140, 14, 63, 22, 171, 47, 75, 16, 105, 242, 184, 237, 152, 205, 183, 72, 245, 59, 151, 235, 217, 231, 113, 203, 247, 190, 18, 87, 128, 206, 122, 78, 250] := by
  rw [noisePerm, fyStep_eq_fyStepN]
  decide

lemma getD_le255 (p : List ℕ) (h : ∀ a ∈ p, a ≤ 255) (n : ℕ) : p.getD n 0 ≤ 255 := by
  rcases lt_or_le n p.length with hn | hn
  · rw [List.getD_eq_getElem?_getD, List.getElem?_eq_getElem hn]
    exact h _ (List.getElem_mem hn)
  · rw [List.getD_eq_getElem?_getD, List.getElem?_eq_none hn]
    norm_num

lemma fyStep_preserves_le255 (ps : List ℕ × ℕ) (i : ℕ) (h : ∀ a ∈ ps.1, a ≤ 255) :
    ∀ a ∈ (fyStep ps i).1, a ≤ 255 := by
  intro a ha
  simp only [fyStep] at ha
  rcases List.mem_or_eq_of_mem_set ha with ha2 | ha2
  · rcases List.mem_or_eq_of_mem_set ha2 with ha3 | ha3
    · exact h _ ha3
    · subst ha3; exact getD_le255 _ h _
  · subst ha2; exact getD_le255 _ h _

lemma foldl_fyStep_le255 (l : List ℕ) :
    ∀ (ps : List ℕ × ℕ), (∀ a ∈ ps.1, a ≤ 255) → ∀ a ∈ (l.foldl fyStep ps).1, a ≤ 255 := by
  induction l with
  | nil => intro ps h; exact h
  | cons i rest ih =>
    intro ps h
    exact ih (fyStep ps i) (fyStep_preserves_le255 ps i h)

set_option maxRecDepth 4000 in
lemma permEntries_le255 (seed : ℕ) : ∀ a ∈ noisePerm seed, a ≤ 255 := by
  unfold noisePerm
  apply foldl_fyStep_le255
  intro a ha
  have ha1 : a ∈ List.range 256 := ha
  have ha2 : a < 256 := List.mem_range.mp ha1
  omega

lemma permAt_le255 (seed i : ℕ) : permAt (noisePerm seed) i ≤ 255 :=
  getD_le255 _ (permEntries_le255 seed) _

lemma corner_bounds (seed i j : ℕ) :
    0 ≤ ValueNoise.corner seed i j ∧ ValueNoise.corner seed i j ≤ 1 := by
  unfold ValueNoise.corner
  constructor
  · positivity
  · rw [div_le_one (by norm_num)]
    have h := permAt_le255 seed (permAt (noisePerm seed) i + j)
    have h2 : (permAt (noisePerm seed) (permAt (noisePerm seed) i + j) : ℚ) ≤ (255 : ℕ) := by
      exact_mod_cast h
    simpa using h2

lemma fract_bounds (x : ℚ) : 0 ≤ x - ⌊x⌋ ∧ x - ⌊x⌋ ≤ 1 := by
  have h1 := Int.floor_le x
  have h2 := Int.lt_floor_add_one x
  constructor <;> [linarith; linarith]

lemma fade_bounds (t : ℚ) (h0 : 0 ≤ t) (h1 : t ≤ 1) : 0 ≤ fade t ∧ fade t ≤ 1 := by
  constructor
  · have hq : 0 ≤ t * (t * 6 - 15) + 10 := by nlinarith [sq_nonneg (t - 5 / 4)]
    unfold fade
    positivity
  · have key : 1 - fade t = (1 - t) ^ 3 * (6 * t ^ 2 + 3 * t + 1) := by
      unfold fade; ring
    nlinarith [pow_nonneg (sub_nonneg.mpr h1) 3, sq_nonneg t, mul_nonneg
      (pow_nonneg (sub_nonneg.mpr h1) 3) (by positivity : (0 : ℚ) ≤ 6 * t ^ 2 + 3 * t + 1)]

lemma lerp_bounds (a b t : ℚ) (ha0 : 0 ≤ a) (ha1 : a ≤ 1) (hb0 : 0 ≤ b) (hb1 : b ≤ 1)
    (ht0 : 0 ≤ t) (ht1 : t ≤ 1) : 0 ≤ lerp a b t ∧ lerp a b t ≤ 1 := by
  unfold lerp
  constructor <;> nlinarith

lemma sample_bounds (seed : ℕ) (x z : ℚ) :
    0 ≤ ValueNoise.sample seed x z ∧ ValueNoise.sample seed x z ≤ 1 := by
  unfold ValueNoise.sample
  have hfx := fade_bounds _ (fract_bounds x).1 (fract_bounds x).2
  have hfz := fade_bounds _ (fract_bounds z).1 (fract_bounds z).2
  have c1 := corner_bounds seed (maskFloor x) (maskFloor z)
  have c2 := corner_bounds seed (maskFloor x + 1) (maskFloor z)
  have c3 := corner_bounds seed (maskFloor x) (maskFloor z + 1)
  have c4 := corner_bounds seed (maskFloor x + 1) (maskFloor z + 1)
  have l1 := lerp_bounds _ _ _ c1.1 c1.2 c2.1 c2.2 hfx.1 hfx.2
  have l2 := lerp_bounds _ _ _ c3.1 c3.2 c4.1 c4.2 hfx.1 hfx.2
  exact lerp_bounds _ _ _ l1.1 l1.2 l2.1 l2.2 hfz.1 hfz.2

lemma maskFloor_lt256 (x : ℚ) : maskFloor x < 256 := by
  unfold maskFloor
  omega

lemma octaveAux_bounds (seed : ℕ) (x z pers : ℚ) (hp : 0 ≤ pers) :
    ∀ (n : ℕ) (amp freq : ℚ), 0 ≤ amp →
      0 ≤ (octaveAux seed x z pers n amp freq).1 ∧
      (octaveAux seed x z pers n amp freq).1 ≤ (octaveAux seed x z pers n amp freq).2 ∧
      (1 ≤ n → amp ≤ (octaveAux seed x z pers n amp freq).2) := by
  intro n
  induction n with
  | zero =>
    intro amp freq _
    refine ⟨le_refl 0, le_refl 0, ?_⟩
    intro h
    omega
  | succ k ih =>
    intro amp freq ha
    have hrest := ih (amp * pers) (freq * 2) (mul_nonneg ha hp)
    have hs := sample_bounds seed (x * freq) (z * freq)
    have e1 : (octaveAux seed x z pers (k + 1) amp freq).1 =
        ValueNoise.sample seed (x * freq) (z * freq) * amp +
          (octaveAux seed x z pers k (amp * pers) (freq * 2)).1 := rfl
    have e2 : (octaveAux seed x z pers (k + 1) amp freq).2 =
        amp + (octaveAux seed x z pers k (amp * pers) (freq * 2)).2 := rfl
    have hr2 : (0 : ℚ) ≤ (octaveAux seed x z pers k (amp * pers) (freq * 2)).2 :=
      le_trans hrest.1 hrest.2.1
    have hsa : ValueNoise.sample seed (x * freq) (z * freq) * amp ≤ amp := by
      nlinarith [hs.1, hs.2]
    have hsa0 : 0 ≤ ValueNoise.sample seed (x * freq) (z * freq) * amp :=
      mul_nonneg hs.1 ha
    refine ⟨?_, ?_, ?_⟩
    · rw [e1]
      linarith [hrest.1]
    · rw [e1, e2]
      linarith [hrest.2.1]
    · intro _
      rw [e2]
      linarith

/-- C6 (amended): `sample` always returns a value in `[0, 1]` with every
permutation-table index it uses in bounds (below 512), and `octave` returns
a value in `[0, 1]` for every octave count `≥ 1`, every nonnegative
persistence and every scale (the persistence used by the generator is 0.5);
for negative persistence the normalized sum can leave `[0, 1]`. -/
theorem C6_noise_bounds :
    (∀ (seed : ℕ) (x z : ℚ),
      (0 ≤ ValueNoise.sample seed x z ∧ ValueNoise.sample seed x z ≤ 1) ∧
      (maskFloor x + 1 < 512 ∧
       permAt (noisePerm seed) (maskFloor x) + maskFloor z + 1 < 512 ∧
       permAt (noisePerm seed) (maskFloor x + 1) + maskFloor z + 1 < 512)) ∧
    (∀ (seed : ℕ) (x z pers scale : ℚ) (octaves : ℕ), 1 ≤ octaves → 0 ≤ pers →
      0 ≤ ValueNoise.octave seed x z octaves pers scale ∧
      ValueNoise.octave seed x z octaves pers scale ≤ 1) := by
  constructor
  · intro seed x z
    refine ⟨sample_bounds seed x z, ?_, ?_, ?_⟩
    · have := maskFloor_lt256 x
      omega
    · have := permAt_le255 seed (maskFloor x)
      have := maskFloor_lt256 z
      omega
    · have := permAt_le255 seed (maskFloor x + 1)
      have := maskFloor_lt256 z
      omega
  · intro seed x z pers scale octaves hoc hp
    have hb := octaveAux_bounds seed x z pers hp octaves 1 scale (by norm_num)
    have hm : (1 : ℚ) ≤ (octaveAux seed x z pers octaves 1 scale).2 := hb.2.2 hoc
    have hmpos : (0 : ℚ) < (octaveAux seed x z pers octaves 1 scale).2 := by linarith
    unfold ValueNoise.octave
    constructor
    · exact div_nonneg hb.1 (le_of_lt hmpos)
    · rw [div_le_one hmpos]
      exact hb.2.1

/-- Witness for C6 at a concrete seed, input and parameter set. -/
theorem C6_witness :
    0 ≤ ValueNoise.octave 0 7 9 6 (1 / 2) (4 / 1000) ∧
    ValueNoise.octave 0 7 9 6 (1 / 2) (4 / 1000) ≤ 1 :=
  (C6_noise_bounds).2 0 7 9 (1 / 2) (4 / 1000) 6 (by norm_num) (by norm_num)

lemma permAt_202 : permAt (noisePerm 12345) 202 = 62 := by rw [noisePerm_12345]; decide

lemma permAt_62 : permAt (noisePerm 12345) 62 = 253 := by rw [noisePerm_12345]; decide

lemma permAt_148 : permAt (noisePerm 12345) 148 = 38 := by rw [noisePerm_12345]; decide

lemma permAt_38 : permAt (noisePerm 12345) 38 = 17 := by rw [noisePerm_12345]; decide

lemma sample_at_202 : ValueNoise.sample 12345 202 0 = 253 / 255 := by
  have hx : maskFloor (202 : ℚ) = 202 := by
    rw [maskFloor]; norm_num; decide
  have hz : maskFloor (0 : ℚ) = 0 := by rw [maskFloor]; norm_num
  have hfx : fade ((202 : ℚ) - ⌊(202 : ℚ)⌋) = 0 := by rw [fade]; norm_num
  have hfz : fade ((0 : ℚ) - ⌊(0 : ℚ)⌋) = 0 := by rw [fade]; norm_num
  rw [ValueNoise.sample, hx, hz, hfx, hfz]
  rw [ValueNoise.corner, permAt_202]
  rw [show (62 : ℕ) + 0 = 62 from rfl, permAt_62]
  simp [lerp]

lemma sample_at_404 : ValueNoise.sample 12345 404 0 = 17 / 255 := by
  have hx : maskFloor (404 : ℚ) = 148 := by
    rw [maskFloor]; norm_num; decide
  have hz : maskFloor (0 : ℚ) = 0 := by rw [maskFloor]; norm_num
  have hfx : fade ((404 : ℚ) - ⌊(404 : ℚ)⌋) = 0 := by rw [fade]; norm_num
  have hfz : fade ((0 : ℚ) - ⌊(0 : ℚ)⌋) = 0 := by rw [fade]; norm_num
  rw [ValueNoise.sample, hx, hz, hfx, hfz]
  rw [ValueNoise.corner, permAt_148]
  rw [show (38 : ℕ) + 0 = 38 from rfl, permAt_38]
  simp [lerp]

/-- Counterexample for C6 as stated: for the concrete seed 12345, input
`(202, 0)`, 2 octaves, persistence `-1/2` and scale 1, `octave` returns
`163/85 > 1`, so the output is not in `[0, 1]` for every persistence. -/
theorem C6_octave_out_of_range_counterexample :
    1 < ValueNoise.octave 12345 202 0 2 (-(1 / 2)) 1 := by
  rw [ValueNoise.octave]
  simp only [octaveAux]
  norm_num [sample_at_202, sample_at_404]

-- ── Frame lemmas for the world store ──

lemma getOrCreateChunk_snd_generatedColumns (w : HousingWorld) (cx cy cz : ℤ) :
    ((w.getOrCreateChunk cx cy cz).2).generatedColumns = w.generatedColumns := by
  unfold HousingWorld.getOrCreateChunk
  cases w.chunks (cx, cy, cz) <;> rfl

lemma getOrCreateChunk_snd_dirtyChunks (w : HousingWorld) (cx cy cz : ℤ) :
    ((w.getOrCreateChunk cx cy cz).2).dirtyChunks = w.dirtyChunks := by
  unfold HousingWorld.getOrCreateChunk
  cases w.chunks (cx, cy, cz) <;> rfl

lemma getOrCreateChunk_chunks (w : HousingWorld) (cx cy cz : ℤ) (k : ChunkKey) :
    ((w.getOrCreateChunk cx cy cz).2).chunks k =
      if k = (cx, cy, cz) then some (w.getOrCreateChunk cx cy cz).1 else w.chunks k := by
  unfold HousingWorld.getOrCreateChunk
  cases h : w.chunks (cx, cy, cz) with
  | none =>
    simp only [HousingWorld.putChunk]
  | some c =>
    by_cases hk : k = (cx, cy, cz)
    · subst hk
      simp [h]
    · simp [hk]

lemma getOrCreateChunk_fst_blocks_of_none (w : HousingWorld) (cx cy cz : ℤ)
    (h : w.chunks (cx, cy, cz) = none) :
    (w.getOrCreateChunk cx cy cz).1.blocks = fun _ => 0 := by
  unfold HousingWorld.getOrCreateChunk
  rw [h]

lemma getOrCreateChunk_fst_of_some (w : HousingWorld) (cx cy cz : ℤ) (c : Chunk)
    (h : w.chunks (cx, cy, cz) = some c) :
    (w.getOrCreateChunk cx cy cz).1 = c := by
  unfold HousingWorld.getOrCreateChunk
  rw [h]

lemma set_generatedColumns (w : HousingWorld) (x y z : ℤ) (b : ℕ) :
    (w.set x y z b).generatedColumns = w.generatedColumns := by
  unfold HousingWorld.set
  split
  · rfl
  · simp only [HousingWorld.markDirtyKey, HousingWorld.putChunk]
    exact getOrCreateChunk_snd_generatedColumns w _ _ _

lemma set_chunks (w : HousingWorld) (x y z : ℤ) (b : ℕ) (h : ¬(y < 0 ∨ 256 ≤ y))
    (k : ChunkKey) :
    (w.set x y z b).chunks k =
      if k = (chunkOf x, chunkOf y, chunkOf z) then
        some { (w.getOrCreateChunk (chunkOf x) (chunkOf y) (chunkOf z)).1.setBlock
                  (localOf x) (localOf y) (localOf z) b with isDirty := true }
      else w.chunks k := by
  unfold HousingWorld.set
  rw [if_neg h]
  simp only [HousingWorld.markDirtyKey, HousingWorld.putChunk]
  by_cases hk : k = (chunkOf x, chunkOf y, chunkOf z)
  · subst hk
    simp [Chunk.setBlock]
  · simp only [if_neg hk]
    rw [getOrCreateChunk_chunks]
    rw [if_neg hk]

lemma get_val (w : HousingWorld) (x y z : ℤ) (h : ¬(y < 0 ∨ 256 ≤ y)) :
    (w.get x y z).1 =
      (match w.chunks (chunkOf x, chunkOf y, chunkOf z) with
        | none => 0
        | some c => c.getBlock (localOf x) (localOf y) (localOf z)) := by
  unfold HousingWorld.get HousingWorld.getChunk
  rw [if_neg h]
  cases w.chunks (chunkOf x, chunkOf y, chunkOf z) <;> rfl

lemma blockIndex_inj (a1 b1 c1 a2 b2 c2 : ℤ)
    (h1 : 0 ≤ a1 ∧ a1 < 32) (h2 : 0 ≤ b1 ∧ b1 < 32) (h3 : 0 ≤ c1 ∧ c1 < 32)
    (h4 : 0 ≤ a2 ∧ a2 < 32) (h5 : 0 ≤ b2 ∧ b2 < 32) (h6 : 0 ≤ c2 ∧ c2 < 32)
    (h : blockIndex a1 b1 c1 = blockIndex a2 b2 c2) : a1 = a2 ∧ b1 = b2 ∧ c1 = c2 := by
  unfold blockIndex at h
  omega

lemma resolve_inj (v1 v2 : ℤ) (hc : chunkOf v1 = chunkOf v2)
    (hl : localOf v1 = localOf v2) : v1 = v2 := by
  have s1 := localOf_spec v1
  have s2 := localOf_spec v2
  omega

/-- After an in-bounds `set`, a `get` at the same point reads the written
block and a `get` at any other point reads the old value. -/
lemma get_set (w : HousingWorld) (x1 y1 z1 : ℤ) (b : ℕ) (x2 y2 z2 : ℤ)
    (h1 : ¬(y1 < 0 ∨ 256 ≤ y1)) (h2 : ¬(y2 < 0 ∨ 256 ≤ y2)) :
    ((w.set x1 y1 z1 b).get x2 y2 z2).1 =
      if x1 = x2 ∧ y1 = y2 ∧ z1 = z2 then b else (w.get x2 y2 z2).1 := by
  rw [get_val _ _ _ _ h2, get_val w _ _ _ h2]
  rw [set_chunks w x1 y1 z1 b h1]
  by_cases hk : ((chunkOf x2, chunkOf y2, chunkOf z2) : ChunkKey) =
      (chunkOf x1, chunkOf y1, chunkOf z1)
  · rw [if_pos hk]
    have hkx : chunkOf x2 = chunkOf x1 := congrArg Prod.fst hk
    have hky : chunkOf y2 = chunkOf y1 := congrArg (fun p => p.2.1) hk
    have hkz : chunkOf z2 = chunkOf z1 := congrArg (fun p => p.2.2) hk
    by_cases heq : x1 = x2 ∧ y1 = y2 ∧ z1 = z2
    · rw [if_pos heq]
      obtain ⟨ex, ey, ez⟩ := heq
      subst ex; subst ey; subst ez
      simp [Chunk.getBlock, Chunk.setBlock]
    · rw [if_neg heq]
      have hidx : blockIndex (localOf x2) (localOf y2) (localOf z2) ≠
          blockIndex (localOf x1) (localOf y1) (localOf z1) := by
        intro hcontra
        have hb := blockIndex_inj _ _ _ _ _ _
          ⟨(localOf_spec x2).2.1, (localOf_spec x2).2.2⟩
          ⟨(localOf_spec y2).2.1, (localOf_spec y2).2.2⟩
          ⟨(localOf_spec z2).2.1, (localOf_spec z2).2.2⟩
          ⟨(localOf_spec x1).2.1, (localOf_spec x1).2.2⟩
          ⟨(localOf_spec y1).2.1, (localOf_spec y1).2.2⟩
          ⟨(localOf_spec z1).2.1, (localOf_spec z1).2.2⟩
          hcontra
        exact heq ⟨resolve_inj x1 x2 hkx.symm hb.1.symm,
          resolve_inj y1 y2 hky.symm hb.2.1.symm,
          resolve_inj z1 z2 hkz.symm hb.2.2.symm⟩
      rw [hk]
      cases hc : w.chunks (chunkOf x1, chunkOf y1, chunkOf z1) with
      | none =>
        simp only [Chunk.getBlock, Chunk.setBlock]
        rw [if_neg hidx]
        rw [getOrCreateChunk_fst_blocks_of_none w _ _ _ hc]
      | some c =>
        simp only [Chunk.getBlock, Chunk.setBlock]
        rw [if_neg hidx]
        rw [getOrCreateChunk_fst_of_some w _ _ _ c hc]
  · rw [if_neg hk]
    have heq : ¬(x1 = x2 ∧ y1 = y2 ∧ z1 = z2) := by
      intro hcontra
      obtain ⟨ex, ey, ez⟩ := hcontra
      subst ex; subst ey; subst ez
      exact hk rfl
    rw [if_neg heq]


-- ── C7: canopy placement (fold preservation lemmas, amended theorem,
--       counterexample) ──

lemma foldl_preserves_get {α : Type} (cx cy cz : ℤ) (f : HousingWorld → α → HousingWorld)
    (hf : ∀ (w2 : HousingWorld) (a : α), (w2.get cx cy cz).1 ≠ 0 →
      ((f w2 a).get cx cy cz).1 = (w2.get cx cy cz).1) :
    ∀ (l : List α) (w : HousingWorld), (w.get cx cy cz).1 ≠ 0 →
      ((l.foldl f w).get cx cy cz).1 = (w.get cx cy cz).1 := by
  intro l
  induction l with
  | nil => intro w _; rfl
  | cons a rest ih =>
    intro w h
    have h1 := hf w a h
    have h2 : ((f w a).get cx cy cz).1 ≠ 0 := by rw [h1]; exact h
    rw [List.foldl_cons, ih (f w a) h2, h1]

lemma condLeafSet_preserves_get (w : HousingWorld) (p q r cx cy cz : ℤ)
    (h : (w.get cx cy cz).1 ≠ 0) :
    ((if (w.get p q r).1 = BLK.AIR then w.set p q r OAK_LEAVES else w).get cx cy cz).1
      = (w.get cx cy cz).1 := by
  by_cases hc : (w.get p q r).1 = BLK.AIR
  · rw [if_pos hc]
    by_cases hq : q < 0 ∨ 256 ≤ q
    · rw [set_oob w p q r OAK_LEAVES hq]
    · by_cases hcy : cy < 0 ∨ 256 ≤ cy
      · rw [get_oob w cx cy cz hcy] at h
        exact absurd rfl h
      · rw [get_set w p q r OAK_LEAVES cx cy cz hq hcy]
        have hne : ¬(p = cx ∧ q = cy ∧ r = cz) := by
          intro hcontra
          obtain ⟨e1, e2, e3⟩ := hcontra
          subst e1; subst e2; subst e3
          exact h hc
        rw [if_neg hne]
  · rw [if_neg hc]

/-- C7 (amended): the three canopy leaf layers of `OakTree.generate` write a
leaf only where the target cell currently reads as the empty block, so every
cell holding a non-empty block keeps its content through the whole canopy
ring phase.  (The final cap leaf is written by a separate unconditional
`set`; it is not covered, see the counterexample.) -/
theorem C7_canopy_preserves_nonempty (w : HousingWorld) (x leafBase z cx cy cz : ℤ)
    (h : (w.get cx cy cz).1 ≠ 0) :
    ((canopyPhase w x leafBase z).get cx cy cz).1 = (w.get cx cy cz).1 := by
  unfold canopyPhase
  refine foldl_preserves_get cx cy cz _ ?_ _ w h
  intro w2 dy h2
  refine foldl_preserves_get cx cy cz _ ?_ _ w2 h2
  intro w3 dx h3
  refine foldl_preserves_get cx cy cz _ ?_ _ w3 h3
  intro w4 dz h4
  by_cases hskip : |dx| = (if dy = 1 then (1 : ℤ) else 2) ∧ |dz| = (if dy = 1 then (1 : ℤ) else 2)
  · rw [if_pos hskip]
  · rw [if_neg hskip]
    exact condLeafSet_preserves_get w4 (x + dx) (leafBase + dy) (z + dz) cx cy cz h4

/-- Witness for C7 at a concrete occupied cell inside the canopy footprint. -/
theorem C7_witness :
    ((canopyPhase (emptyWorld.set 6 3 5 7) 5 3 5).get 6 3 5).1 =
      ((emptyWorld.set 6 3 5 7).get 6 3 5).1 :=
  C7_canopy_preserves_nonempty (emptyWorld.set 6 3 5 7) 5 3 5 6 3 5 (by decide)

lemma oak_height_seed0 : (4 : ℤ) + ⌊(m32 0).2 * 3⌋ = 4 := by
  rw [m32_snd]
  have h3 : (3 : ℚ) = ((3 : ℕ) : ℚ) := by norm_num
  rw [h3, floor_natCast_div_mul]
  decide

/-- Counterexample for C7 as stated: with the chunk PRNG state 0 the trunk
height is 4, so the cap leaf lands at `y = 16` for a tree generated at
`(0, 10, 0)`; a world holding stone (block 1) at `(0, 16, 0)` ends with
leaves (block 30) there after `OakTree.generate` — the cap write of the
canopy phase overwrote an occupied cell. -/
theorem C7_cap_overwrites_counterexample :
    ((OakTree.generate (emptyWorld.set 0 16 0 1) 0 10 0 0).1.get 0 16 0).1 = OAK_LEAVES ∧
    ((emptyWorld.set 0 16 0 1).get 0 16 0).1 = 1 := by
  constructor
  · simp only [OakTree.generate]
    rw [oak_height_seed0]
    decide
  · decide

-- ── Store preservation machinery (C1, C8, C9) ──

lemma chunksPreserved_refl (w : HousingWorld) : ChunksPreserved w w :=
  fun k c h => ⟨c, h, rfl, rfl, rfl⟩

lemma chunksPreserved_trans {a b c : HousingWorld}
    (h1 : ChunksPreserved a b) (h2 : ChunksPreserved b c) : ChunksPreserved a c := by
  intro k ck hk
  obtain ⟨c1, hc1, e1, e2, e3⟩ := h1 k ck hk
  obtain ⟨c2, hc2, f1, f2, f3⟩ := h2 k c1 hc1
  exact ⟨c2, hc2, by rw [f1, e1], by rw [f2, e2], by rw [f3, e3]⟩

lemma storePreserved_refl (w : HousingWorld) : StorePreserved w w :=
  ⟨rfl, chunksPreserved_refl w⟩

lemma storePreserved_trans {a b c : HousingWorld}
    (h1 : StorePreserved a b) (h2 : StorePreserved b c) : StorePreserved a c :=
  ⟨by rw [h2.1, h1.1], chunksPreserved_trans h1.2 h2.2⟩

lemma foldl_rel (R : HousingWorld → HousingWorld → Prop)
    (hrefl : ∀ w, R w w)
    (htrans : ∀ {a b c}, R a b → R b c → R a c)
    {α : Type} (f : HousingWorld → α → HousingWorld)
    (hf : ∀ w a, R w (f w a)) :
    ∀ (l : List α) (w : HousingWorld), R w (l.foldl f w) := by
  intro l
  induction l with
  | nil => intro w; exact hrefl w
  | cons a rest ih =>
    intro w
    exact htrans (hf w a) (ih (f w a))

lemma storePreserved_getOrCreate (w : HousingWorld) (cx cy cz : ℤ) :
    StorePreserved w (w.getOrCreateChunk cx cy cz).2 := by
  refine ⟨getOrCreateChunk_snd_generatedColumns w cx cy cz, ?_⟩
  intro k c hk
  rw [getOrCreateChunk_chunks]
  by_cases h : k = ((cx, cy, cz) : ChunkKey)
  · subst h
    rw [if_pos rfl]
    rw [getOrCreateChunk_fst_of_some w cx cy cz c hk]
    exact ⟨c, rfl, rfl, rfl, rfl⟩
  · rw [if_neg h]
    exact ⟨c, hk, rfl, rfl, rfl⟩

lemma storePreserved_set (w : HousingWorld) (x y z : ℤ) (b : ℕ) :
    StorePreserved w (w.set x y z b) := by
  by_cases h : y < 0 ∨ 256 ≤ y
  · rw [set_oob w x y z b h]
    exact storePreserved_refl w
  · refine ⟨set_generatedColumns w x y z b, ?_⟩
    intro k c hk
    rw [set_chunks w x y z b h]
    by_cases hkk : k = ((chunkOf x, chunkOf y, chunkOf z) : ChunkKey)
    · subst hkk
      rw [if_pos rfl]
      rw [getOrCreateChunk_fst_of_some w _ _ _ c hk]
      exact ⟨_, rfl, rfl, rfl, rfl⟩
    · rw [if_neg hkk]
      exact ⟨c, hk, rfl, rfl, rfl⟩

lemma storePreserved_canopyPhase (w : HousingWorld) (x leafBase z : ℤ) :
    StorePreserved w (canopyPhase w x leafBase z) := by
  unfold canopyPhase
  refine foldl_rel StorePreserved storePreserved_refl storePreserved_trans _ ?_ _ _
  intro w2 dy
  refine foldl_rel StorePreserved storePreserved_refl storePreserved_trans _ ?_ _ _
  intro w3 dx
  refine foldl_rel StorePreserved storePreserved_refl storePreserved_trans _ ?_ _ _
  intro w4 dz
  by_cases hskip : |dx| = (if dy = 1 then (1 : ℤ) else 2) ∧
      |dz| = (if dy = 1 then (1 : ℤ) else 2)
  · rw [if_pos hskip]
    exact storePreserved_refl w4
  · rw [if_neg hskip]
    by_cases hair : (w4.get (x + dx) (leafBase + dy) (z + dz)).1 = BLK.AIR
    · rw [if_pos hair]
      exact storePreserved_set w4 _ _ _ _
    · rw [if_neg hair]
      exact storePreserved_refl w4

lemma oakTree_OK : StructureOK OakTree.generate := by
  intro w x y z s
  simp only [OakTree.generate]
  refine storePreserved_trans ?_ (storePreserved_set _ _ _ _ _)
  refine storePreserved_trans ?_ (storePreserved_canopyPhase _ _ _ _)
  exact foldl_rel StorePreserved storePreserved_refl storePreserved_trans
    (fun w2 (i : ℕ) => w2.set x (y + i) z OAK_LOG)
    (fun w2 (i : ℕ) => storePreserved_set w2 x (y + i) z OAK_LOG) _ w

lemma storePreserved_markDirtyKey (w : HousingWorld) (k : ChunkKey) :
    StorePreserved w (w.markDirtyKey k) := by
  refine ⟨rfl, ?_⟩
  intro k2 c hk2
  simp only [HousingWorld.markDirtyKey]
  by_cases h : k2 = k
  · subst h
    simp only [if_pos rfl, hk2, Option.map_some]
    exact ⟨_, rfl, rfl, rfl, rfl⟩
  · rw [if_neg h]
    exact ⟨c, hk2, rfl, rfl, rfl⟩

lemma storePreserved_terrainLayerStep (seaLevel chunkX chunkZ : ℤ) (hm : ℕ → ℕ → ℤ)
    (w : HousingWorld) (cy : ℕ) :
    StorePreserved w (terrainLayerStep seaLevel chunkX chunkZ hm w cy) := by
  unfold terrainLayerStep
  by_cases h : (32 : ℤ) * cy > maxHeightOf hm
  · rw [if_pos h]
    exact storePreserved_refl w
  · rw [if_neg h]
    apply storePreserved_trans (storePreserved_getOrCreate w chunkX cy chunkZ)
    apply storePreserved_trans (b :=
      ((w.getOrCreateChunk chunkX cy chunkZ).2.putChunk (chunkX, (cy : ℤ), chunkZ)
        (fillLayer (w.getOrCreateChunk chunkX cy chunkZ).1 hm (32 * cy) seaLevel)))
    · refine ⟨rfl, ?_⟩
      intro k c hk
      simp only [HousingWorld.putChunk]
      by_cases hkk : k = ((chunkX, (cy : ℤ), chunkZ) : ChunkKey)
      · subst hkk
        rw [if_pos rfl]
        rw [getOrCreateChunk_chunks] at hk
        rw [if_pos rfl] at hk
        have hc : (w.getOrCreateChunk chunkX cy chunkZ).1 = c := Option.some.inj hk
        refine ⟨_, rfl, ?_, ?_, ?_⟩ <;> rw [← hc] <;> rfl
      · rw [if_neg hkk]
        exact ⟨c, hk, rfl, rfl, rfl⟩
    · exact storePreserved_markDirtyKey _ _
  
lemma storePreserved_terrainPhase (seaLevel chunkX chunkZ : ℤ) (hm : ℕ → ℕ → ℤ)
    (w : HousingWorld) :
    StorePreserved w (terrainPhase seaLevel chunkX chunkZ hm w) :=
  foldl_rel StorePreserved storePreserved_refl storePreserved_trans _
    (storePreserved_terrainLayerStep seaLevel chunkX chunkZ hm) _ w

lemma storePreserved_structureAttempt (f : StructureFn) (hok : StructureOK f)
    (hm : ℕ → ℕ → ℤ) (wx0 wz0 seaLevel : ℤ) (ws : HousingWorld × ℕ) :
    StorePreserved ws.1 (structureAttempt f hm wx0 wz0 seaLevel ws).1 := by
  unfold structureAttempt
  by_cases h : hm (⌊(m32 ws.2).2 * 32⌋).toNat (⌊(m32 (m32 ws.2).1).2 * 32⌋).toNat ≤ seaLevel + 2
  · rw [if_pos h]
    exact storePreserved_refl ws.1
  · rw [if_neg h]
    exact hok ws.1 _ _ _ _

lemma storePreserved_structuresPhase (entries : List StructureEntry)
    (hok : ∀ e ∈ entries, StructureOK e.structureFn) (hm : ℕ → ℕ → ℤ)
    (wx0 wz0 seaLevel : ℤ) :
    ∀ (w : HousingWorld) (s : ℕ),
      StorePreserved w (structuresPhase entries hm wx0 wz0 seaLevel w s).1 := by
  induction entries with
  | nil => intro w s; exact storePreserved_refl w
  | cons e rest ih =>
    intro w s
    unfold structuresPhase
    rw [List.foldl_cons]
    have hstep : ∀ (ws : HousingWorld × ℕ) (n : ℕ),
        ∀ (l : List ℕ), StorePreserved ws.1
          (l.foldl (fun ws2 _ => structureAttempt e.structureFn hm wx0 wz0 seaLevel ws2) ws).1 := by
      intro ws n l
      induction l generalizing ws with
      | nil => exact storePreserved_refl ws.1
      | cons a rest2 ih2 =>
        rw [List.foldl_cons]
        exact storePreserved_trans
          (storePreserved_structureAttempt e.structureFn (hok e (List.mem_cons_self e rest)) hm wx0 wz0 seaLevel ws)
          (ih2 _)
    have hrest := ih (fun e2 he2 => hok e2 (List.mem_cons_of_mem e he2))
    apply storePreserved_trans (hstep (w, s) 0 (List.range e.attemptsPerChunk))
    exact hrest _ _

lemma markColumnGenerated_generatedColumns (w : HousingWorld) (cx cz : ℤ) :
    (w.markColumnGenerated cx cz).generatedColumns =
      fun c => if c = (cx, cz) then true else w.generatedColumns c := rfl

/-- The generated-column set after `generateChunk` is exactly the old set
with the generated column added. -/
lemma generateChunk_generatedColumns (g : WorldGenerator) (w : HousingWorld)
    (cx cz : ℤ) (hok : ∀ e ∈ g.structures, StructureOK e.structureFn) :
    (g.generateChunk w cx cz).generatedColumns =
      fun c => if c = (cx, cz) then true else w.generatedColumns c := by
  unfold WorldGenerator.generateChunk
  by_cases h : w.isColumnGenerated cx cz
  · rw [if_pos h]
    funext c
    by_cases hc : c = ((cx, cz) : ℤ × ℤ)
    · subst hc
      rw [if_pos rfl]
      exact h
    · rw [if_neg hc]
  · rw [if_neg h]
    have h1 := storePreserved_terrainPhase g.seaLevel cx cz (heightsFn g cx cz)
      (w.markColumnGenerated cx cz)
    have h2 := storePreserved_structuresPhase g.structures hok (heightsFn g cx cz)
      (32 * cx) (32 * cz) g.seaLevel
      (terrainPhase g.seaLevel cx cz (heightsFn g cx cz) (w.markColumnGenerated cx cz))
      (hashCoords g.seed cx cz)
    rw [h2.1, h1.1, markColumnGenerated_generatedColumns]

lemma generateChunk_flag (g : WorldGenerator) (w : HousingWorld) (cx cz : ℤ)
    (hok : ∀ e ∈ g.structures, StructureOK e.structureFn) :
    (g.generateChunk w cx cz).isColumnGenerated cx cz = true := by
  unfold HousingWorld.isColumnGenerated
  rw [generateChunk_generatedColumns g w cx cz hok]
  simp

/-- C1: column generation is idempotent: whatever the store state, running
`generateChunk` twice on a column yields exactly the state of running it
once (chunk buffers, generated-column set and dirty set included), and the
generated flag is set after the first call, which is what makes the second
call return immediately. -/
theorem C1_generateChunk_idempotent (g : WorldGenerator) (w : HousingWorld)
    (cx cz : ℤ) (hok : ∀ e ∈ g.structures, StructureOK e.structureFn) :
    g.generateChunk (g.generateChunk w cx cz) cx cz = g.generateChunk w cx cz ∧
    (g.generateChunk w cx cz).isColumnGenerated cx cz = true := by
  refine ⟨?_, generateChunk_flag g w cx cz hok⟩
  conv_lhs => rw [WorldGenerator.generateChunk]
  rw [generateChunk_flag g w cx cz hok]
  simp only [if_true]

/-- Witness for C1: the default generator (whose catalog is one `OakTree`)
at a concrete store and column. -/
theorem C1_witness :
    (mkGenerator 12345).generateChunk
        ((mkGenerator 12345).generateChunk emptyWorld 0 0) 0 0 =
      (mkGenerator 12345).generateChunk emptyWorld 0 0 ∧
    ((mkGenerator 12345).generateChunk emptyWorld 0 0).isColumnGenerated 0 0 = true := by
  apply C1_generateChunk_idempotent
  intro e he
  rw [show (mkGenerator 12345).structures = [⟨OakTree.generate, 3⟩] from rfl] at he
  rw [List.mem_singleton] at he
  subst he
  exact oakTree_OK

-- ── C8: streaming budget, closest-first (ring traversal lemmas) ──

lemma mem_offsets (r : ℤ) (hr : 0 ≤ r) (d : ℤ) : d ∈ offsets r ↔ -r ≤ d ∧ d ≤ r := by
  unfold offsets
  constructor
  · intro hd
    rw [List.mem_map] at hd
    obtain ⟨i, hi, hfi⟩ := hd
    rw [List.mem_range] at hi
    omega
  · intro h
    rw [List.mem_map]
    exact ⟨(d + r).toNat, List.mem_range.mpr (by omega), by omega⟩

lemma mem_foldr_append {α β : Type} (l : List α) (f : α → List β) (c : β) :
    c ∈ l.foldr (fun x acc => f x ++ acc) [] ↔ ∃ x ∈ l, c ∈ f x := by
  induction l with
  | nil => simp
  | cons a rest ih =>
    simp [List.foldr_cons, List.mem_append, ih]

lemma mem_ringCells (pcx pcz : ℤ) (r : ℕ) (c : ℤ × ℤ) :
    c ∈ ringCells pcx pcz r ↔ chebDist c (pcx, pcz) = r := by
  unfold ringCells
  rw [mem_foldr_append]
  constructor
  · rintro ⟨dx, hdx, hc⟩
    rw [List.mem_filterMap] at hc
    obtain ⟨dz, hdz, hsome⟩ := hc
    rw [mem_offsets _ (by positivity) _] at hdx
    rw [mem_offsets _ (by positivity) _] at hdz
    by_cases hcond : |dx| = (r : ℤ) ∨ |dz| = (r : ℤ)
    · rw [if_pos hcond] at hsome
      have hc2 : c = (pcx + dx, pcz + dz) := (Option.some.inj hsome).symm
      subst hc2
      unfold chebDist
      rw [max_eq_iff]
      rw [Int.abs_eq_natAbs, Int.abs_eq_natAbs] at hcond
      simp only [add_sub_cancel_left]
      omega
    · rw [if_neg hcond] at hsome
      exact absurd hsome (by simp)
  · intro h
    unfold chebDist at h
    rw [max_eq_iff] at h
    refine ⟨c.1 - pcx, ?_, ?_⟩
    · rw [mem_offsets _ (by positivity) _]
      omega
    · rw [List.mem_filterMap]
      refine ⟨c.2 - pcz, ?_, ?_⟩
      · rw [mem_offsets _ (by positivity) _]
        omega
      · have hcond2 : |c.1 - pcx| = (r : ℤ) ∨ |c.2 - pcz| = (r : ℤ) := by
          rw [Int.abs_eq_natAbs, Int.abs_eq_natAbs]
          omega
        rw [if_pos hcond2]
        have e1 : pcx + (c.1 - pcx) = c.1 := by ring
        have e2 : pcz + (c.2 - pcz) = c.2 := by ring
        rw [e1, e2]

lemma mem_ringList (pcx pcz : ℤ) (rd : ℕ) (c : ℤ × ℤ) :
    c ∈ ringList pcx pcz rd ↔ chebDist c (pcx, pcz) ≤ rd := by
  unfold ringList
  rw [mem_foldr_append]
  constructor
  · rintro ⟨r, hr, hc⟩
    rw [List.mem_range] at hr
    rw [mem_ringCells] at hc
    omega
  · intro h
    exact ⟨chebDist c (pcx, pcz), List.mem_range.mpr (by omega),
      (mem_ringCells pcx pcz _ c).mpr rfl⟩

lemma genLoop_one (g : WorldGenerator) :
    ∀ (l : List (ℤ × ℤ)) (w : HousingWorld),
      genLoop g 1 w 0 l =
        (match l.find? (fun c => !(w.isColumnGenerated c.1 c.2)) with
          | none => w
          | some c => g.generateChunk w c.1 c.2) := by
  intro l
  induction l with
  | nil => intro w; rfl
  | cons c rest ih =>
    intro w
    unfold genLoop
    by_cases h : w.isColumnGenerated c.1 c.2
    · rw [if_pos h]
      rw [ih w]
      have hp : ¬((fun c2 : ℤ × ℤ => !(w.isColumnGenerated c2.1 c2.2)) c = true) := by
        simp [h]
      rw [@List.find?_cons_of_neg (ℤ × ℤ)
        (fun c2 : ℤ × ℤ => !(w.isColumnGenerated c2.1 c2.2)) c rest (by simpa using hp)]
    · rw [if_neg h]
      have hp : (fun c2 : ℤ × ℤ => !(w.isColumnGenerated c2.1 c2.2)) c = true := by
        simp only [Bool.not_eq_true']
        simp only [Bool.not_eq_true] at h
        exact h
      rw [@List.find?_cons_of_pos (ℤ × ℤ)
        (fun c2 : ℤ × ℤ => !(w.isColumnGenerated c2.1 c2.2)) c rest hp]
      simp

lemma foldr_append_append {α β : Type} (l1 l2 : List α) (f : α → List β) :
    (l1 ++ l2).foldr (fun x acc => f x ++ acc) [] =
      l1.foldr (fun x acc => f x ++ acc) [] ++ l2.foldr (fun x acc => f x ++ acc) [] := by
  induction l1 with
  | nil => rfl
  | cons a rest ih =>
    simp [List.foldr_cons, ih]

/-- Find-first over the radius-ordered ring traversal returns an element of
minimal rank among all matches. -/
lemma find?_rings_min (f : ℕ → List (ℤ × ℤ)) (rank : ℤ × ℤ → ℕ) (p : ℤ × ℤ → Bool)
    (hrank : ∀ r x, x ∈ f r → rank x = r) :
    ∀ (n : ℕ) (c : ℤ × ℤ),
      ((List.range n).foldr (fun r acc => f r ++ acc) []).find? p = some c →
      ∀ x, p x = true → (∃ r < n, x ∈ f r) → rank c ≤ rank x := by
  intro n
  induction n with
  | zero =>
    intro c hc
    simp at hc
  | succ m ih =>
    intro c hc x hpx hx
    rw [List.range_succ, foldr_append_append] at hc
    rw [List.find?_append] at hc
    cases hfirst : ((List.range m).foldr (fun r acc => f r ++ acc) []).find? p with
    | some c1 =>
      rw [hfirst] at hc
      simp only [Option.or] at hc
      have hcc : c = c1 := (Option.some.inj hc).symm
      subst hcc
      obtain ⟨r, hrm, hxr⟩ := hx
      by_cases hrlt : r < m
      · exact ih c hfirst x hpx ⟨r, hrlt, hxr⟩
      · have hrm2 : r = m := by omega
        subst hrm2
        have hxrank := hrank r x hxr
        have hcmem := List.mem_of_find?_eq_some hfirst
        rw [mem_foldr_append] at hcmem
        obtain ⟨r2, hr2, hcr2⟩ := hcmem
        rw [List.mem_range] at hr2
        have hcrank := hrank r2 c hcr2
        omega
    | none =>
      rw [hfirst] at hc
      simp only [Option.or] at hc
      have hcmem := List.mem_of_find?_eq_some hc
      simp only [List.foldr_cons, List.foldr_nil, List.append_nil] at hcmem
      have hcrank := hrank m c hcmem
      obtain ⟨r, hrm, hxr⟩ := hx
      by_cases hrlt : r < m
      · have hnone := List.find?_eq_none.mp hfirst x
        have hxmem : x ∈ (List.range m).foldr (fun r acc => f r ++ acc) [] := by
          rw [mem_foldr_append]
          exact ⟨r, List.mem_range.mpr hrlt, hxr⟩
        exact absurd hpx (hnone hxmem)
      · have : r = m := by omega
        subst this
        have := hrank r x hxr
        omega

lemma unloadPhase_generatedColumns (w : HousingWorld) (pcx pcz limit : ℤ) :
    (unloadPhase w pcx pcz limit).generatedColumns = w.generatedColumns := rfl

lemma buildAux_generatedColumns (maxChunks : ℕ) :
    ∀ (l : List ChunkKey) (w : HousingWorld) (built : ℕ),
      (buildAux maxChunks w l built).generatedColumns = w.generatedColumns := by
  intro l
  induction l with
  | nil => intro w built; rfl
  | cons k rest ih =>
    intro w built
    unfold buildAux
    by_cases h : maxChunks ≤ built + 1
    · rw [if_pos h]
    · rw [if_neg h]
      rw [ih]

lemma buildChunks_generatedColumns (w : HousingWorld) (maxChunks : ℕ) :
    (w.buildChunks maxChunks).generatedColumns = w.generatedColumns :=
  buildAux_generatedColumns maxChunks w.dirtyChunks w 0

/-- C8: with a generation budget of one column per call and at least one
not-yet-generated column within `renderDistance` of the player's column,
`update` generates exactly one new column — the generated-column set gains
exactly one element — and that column has the smallest ring (Chebyshev)
radius among all missing columns in range. -/
theorem C8_streaming_budget_closest_first (w : HousingWorld) (playerX playerZ : ℚ)
    (g : WorldGenerator) (renderDistance maxBuild : ℕ)
    (hok : ∀ e ∈ g.structures, StructureOK e.structureFn)
    (hmiss : ∃ c : ℤ × ℤ, chebDist c (⌊playerX / 32⌋, ⌊playerZ / 32⌋) ≤ renderDistance ∧
      w.generatedColumns c = false) :
    ∃ c0 : ℤ × ℤ,
      w.generatedColumns c0 = false ∧
      chebDist c0 (⌊playerX / 32⌋, ⌊playerZ / 32⌋) ≤ renderDistance ∧
      (w.update playerX playerZ g renderDistance 1 maxBuild).generatedColumns =
        (fun c => if c = c0 then true else w.generatedColumns c) ∧
      (∀ c2 : ℤ × ℤ, w.generatedColumns c2 = false →
        chebDist c2 (⌊playerX / 32⌋, ⌊playerZ / 32⌋) ≤ renderDistance →
        chebDist c0 (⌊playerX / 32⌋, ⌊playerZ / 32⌋) ≤
          chebDist c2 (⌊playerX / 32⌋, ⌊playerZ / 32⌋)) := by
  obtain ⟨cm, hcm1, hcm2⟩ := hmiss
  have hfind : (ringList ⌊playerX / 32⌋ ⌊playerZ / 32⌋ renderDistance).find?
      (fun c => !(w.isColumnGenerated c.1 c.2)) ≠ none := by
    intro hnone
    have hmem : cm ∈ ringList ⌊playerX / 32⌋ ⌊playerZ / 32⌋ renderDistance :=
      (mem_ringList _ _ _ _).mpr hcm1
    have := List.find?_eq_none.mp hnone cm hmem
    simp only [Bool.not_eq_true', HousingWorld.isColumnGenerated] at this
    rw [hcm2] at this
    simp at this
  cases hf : (ringList ⌊playerX / 32⌋ ⌊playerZ / 32⌋ renderDistance).find?
      (fun c => !(w.isColumnGenerated c.1 c.2)) with
  | none => exact absurd hf hfind
  | some c0 =>
    obtain ⟨c01, c02⟩ := c0
    have hp := List.find?_some hf
    simp only [Bool.not_eq_true', HousingWorld.isColumnGenerated] at hp
    have hmem := List.mem_of_find?_eq_some hf
    rw [mem_ringList] at hmem
    refine ⟨(c01, c02), hp, hmem, ?_, ?_⟩
    · show (HousingWorld.update w playerX playerZ g renderDistance 1 maxBuild).generatedColumns = _
      unfold HousingWorld.update
      rw [buildChunks_generatedColumns, unloadPhase_generatedColumns]
      rw [genLoop_one g _ w, hf]
      show (g.generateChunk w c01 c02).generatedColumns = _
      rw [generateChunk_generatedColumns g w c01 c02 hok]
    · intro c2 hc2 hc2r
      refine find?_rings_min (ringCells ⌊playerX / 32⌋ ⌊playerZ / 32⌋)
        (fun c => chebDist c (⌊playerX / 32⌋, ⌊playerZ / 32⌋))
        (fun c => !(w.isColumnGenerated c.1 c.2))
        (fun r x hx => (mem_ringCells _ _ r x).mp hx)
        (renderDistance + 1) (c01, c02) hf c2 ?_ ?_
      · simp only [Bool.not_eq_true', HousingWorld.isColumnGenerated]
        exact hc2
      · exact ⟨chebDist c2 (⌊playerX / 32⌋, ⌊playerZ / 32⌋), by omega,
          (mem_ringCells _ _ _ c2).mpr rfl⟩

/-- Witness for C8 at a concrete store, player position and render
distance. -/
theorem C8_witness :
    ∃ c0 : ℤ × ℤ,
      emptyWorld.generatedColumns c0 = false ∧
      chebDist c0 (⌊(0 : ℚ) / 32⌋, ⌊(0 : ℚ) / 32⌋) ≤ 0 ∧
      (emptyWorld.update 0 0 (mkGenerator 12345) 0 1 2).generatedColumns =
        (fun c => if c = c0 then true else emptyWorld.generatedColumns c) ∧
      (∀ c2 : ℤ × ℤ, emptyWorld.generatedColumns c2 = false →
        chebDist c2 (⌊(0 : ℚ) / 32⌋, ⌊(0 : ℚ) / 32⌋) ≤ 0 →
        chebDist c0 (⌊(0 : ℚ) / 32⌋, ⌊(0 : ℚ) / 32⌋) ≤
          chebDist c2 (⌊(0 : ℚ) / 32⌋, ⌊(0 : ℚ) / 32⌋)) := by
  apply C8_streaming_budget_closest_first
  · intro e he
    rw [show (mkGenerator 12345).structures = [⟨OakTree.generate, 3⟩] from rfl] at he
    rw [List.mem_singleton] at he
    subst he
    exact oakTree_OK
  · refine ⟨(⌊(0 : ℚ) / 32⌋, ⌊(0 : ℚ) / 32⌋), ?_, rfl⟩
    unfold chebDist
    simp


-- ── C9: unload hysteresis ──

lemma markColumnGenerated_chunks (w : HousingWorld) (cx cz : ℤ) :
    (w.markColumnGenerated cx cz).chunks = w.chunks := rfl

lemma chunksPreserved_generateChunk (g : WorldGenerator) (w : HousingWorld) (cx cz : ℤ)
    (hok : ∀ e ∈ g.structures, StructureOK e.structureFn) :
    ChunksPreserved w (g.generateChunk w cx cz) := by
  unfold WorldGenerator.generateChunk
  by_cases h : w.isColumnGenerated cx cz
  · rw [if_pos h]
    exact chunksPreserved_refl w
  · rw [if_neg h]
    have h1 : ChunksPreserved w (w.markColumnGenerated cx cz) := by
      intro k c hk
      rw [markColumnGenerated_chunks]
      exact ⟨c, hk, rfl, rfl, rfl⟩
    exact chunksPreserved_trans h1
      (chunksPreserved_trans
        (storePreserved_terrainPhase g.seaLevel cx cz (heightsFn g cx cz) _).2
        (storePreserved_structuresPhase g.structures hok (heightsFn g cx cz)
          (32 * cx) (32 * cz) g.seaLevel _ _).2)

lemma genLoop_chunksPreserved (g : WorldGenerator) (maxGen : ℕ)
    (hok : ∀ e ∈ g.structures, StructureOK e.structureFn) :
    ∀ (l : List (ℤ × ℤ)) (w : HousingWorld) (generated : ℕ),
      ChunksPreserved w (genLoop g maxGen w generated l) := by
  intro l
  induction l with
  | nil => intro w generated; exact chunksPreserved_refl w
  | cons c rest ih =>
    intro w generated
    unfold genLoop
    by_cases h : w.isColumnGenerated c.1 c.2
    · rw [if_pos h]
      exact ih w generated
    · rw [if_neg h]
      by_cases hb : maxGen ≤ generated + 1
      · rw [if_pos hb]
        exact chunksPreserved_generateChunk g w c.1 c.2 hok
      · rw [if_neg hb]
        exact chunksPreserved_trans (chunksPreserved_generateChunk g w c.1 c.2 hok)
          (ih _ _)

lemma unloadPhase_chunks (w : HousingWorld) (pcx pcz limit : ℤ) (k : ChunkKey) :
    (unloadPhase w pcx pcz limit).chunks k =
      (match w.chunks k with
        | some c => if farChunk c pcx pcz limit then none else some c
        | none => none) := rfl

lemma unloadPhase_dirtyChunks (w : HousingWorld) (pcx pcz limit : ℤ) :
    (unloadPhase w pcx pcz limit).dirtyChunks =
      w.dirtyChunks.filter (fun k => match w.chunks k with
        | some c => decide (¬farChunk c pcx pcz limit)
        | none => true) := rfl

lemma buildStep_chunks (w : HousingWorld) (k : ChunkKey) (rest : List ChunkKey)
    (k2 : ChunkKey) :
    ({ w with
        chunks := fun k3 =>
          if k3 = k then (w.chunks k).map (fun c => { c with isDirty := false })
          else w.chunks k3,
        dirtyChunks := rest } : HousingWorld).chunks k2 =
      (if k2 = k then (w.chunks k).map (fun c => { c with isDirty := false })
      else w.chunks k2) := rfl

lemma buildAux_chunksPreserved_fwd (maxChunks : ℕ) :
    ∀ (l : List ChunkKey) (w : HousingWorld) (built : ℕ),
      ChunksPreserved w (buildAux maxChunks w l built) := by
  intro l
  induction l with
  | nil => intro w built; exact chunksPreserved_refl w
  | cons k rest ih =>
    intro w built
    have hstep : ChunksPreserved w
        ({ w with
            chunks := fun k2 =>
              if k2 = k then (w.chunks k).map (fun c => { c with isDirty := false })
              else w.chunks k2,
            dirtyChunks := rest } : HousingWorld) := by
      intro k2 c hk2
      by_cases h : k2 = k
      · subst h
        refine ⟨{ c with isDirty := false }, ?_, rfl, rfl, rfl⟩
        rw [buildStep_chunks, if_pos rfl, hk2]
        rfl
      · refine ⟨c, ?_, rfl, rfl, rfl⟩
        rw [buildStep_chunks, if_neg h]
        exact hk2
    unfold buildAux
    by_cases hb : maxChunks ≤ built + 1
    · rw [if_pos hb]
      exact hstep
    · rw [if_neg hb]
      exact chunksPreserved_trans hstep (ih _ _)

lemma buildAux_chunksPreserved_rev (maxChunks : ℕ) :
    ∀ (l : List ChunkKey) (w : HousingWorld) (built : ℕ),
      ChunksPreserved (buildAux maxChunks w l built) w := by
  intro l
  induction l with
  | nil => intro w built; exact chunksPreserved_refl w
  | cons k rest ih =>
    intro w built
    have hstep : ChunksPreserved
        ({ w with
            chunks := fun k2 =>
              if k2 = k then (w.chunks k).map (fun c => { c with isDirty := false })
              else w.chunks k2,
            dirtyChunks := rest } : HousingWorld) w := by
      intro k2 c hk2
      rw [buildStep_chunks] at hk2
      by_cases h : k2 = k
      · rw [if_pos h] at hk2
        cases hc : w.chunks k with
        | none =>
          rw [hc] at hk2
          exact absurd hk2 (by simp)
        | some c0 =>
          rw [hc] at hk2
          have hk3 : ({ c0 with isDirty := false } : Chunk) = c := Option.some.inj hk2
          rw [h]
          exact ⟨c0, hc, by rw [← hk3], by rw [← hk3], by rw [← hk3]⟩
      · rw [if_neg h] at hk2
        exact ⟨c, hk2, rfl, rfl, rfl⟩
    unfold buildAux
    by_cases hb : maxChunks ≤ built + 1
    · rw [if_pos hb]
      exact hstep
    · rw [if_neg hb]
      exact chunksPreserved_trans (ih _ _) hstep

lemma buildAux_dirty_sub (maxChunks : ℕ) :
    ∀ (l : List ChunkKey) (w : HousingWorld) (built : ℕ), w.dirtyChunks = l →
      ∀ k, k ∈ (buildAux maxChunks w l built).dirtyChunks → k ∈ l := by
  intro l
  induction l with
  | nil =>
    intro w built hw k hk
    unfold buildAux at hk
    rw [hw] at hk
    exact hk
  | cons k0 rest ih =>
    intro w built hw k hk
    unfold buildAux at hk
    by_cases hb : maxChunks ≤ built + 1
    · rw [if_pos hb] at hk
      exact List.mem_cons_of_mem k0 hk
    · rw [if_neg hb] at hk
      exact List.mem_cons_of_mem k0 (ih _ _ rfl k hk)

lemma farChunk_congr (c c2 : Chunk) (pcx pcz limit : ℤ)
    (hx : c2.x = c.x) (hz : c2.z = c.z) :
    farChunk c2 pcx pcz limit ↔ farChunk c pcx pcz limit := by
  unfold farChunk
  rw [hx, hz]

lemma unload_build_keep (w1 : HousingWorld) (pcx pcz limit : ℤ) (maxBuild : ℕ)
    (k : ChunkKey) (c1 : Chunk) (hc1 : w1.chunks k = some c1)
    (hnear : ¬farChunk c1 pcx pcz limit) :
    ∃ c2, ((unloadPhase w1 pcx pcz limit).buildChunks maxBuild).chunks k = some c2 ∧
      c2.x = c1.x ∧ c2.y = c1.y ∧ c2.z = c1.z := by
  have hu : (unloadPhase w1 pcx pcz limit).chunks k = some c1 := by
    rw [unloadPhase_chunks, hc1]
    show (if farChunk c1 pcx pcz limit then none else some c1) = some c1
    rw [if_neg hnear]
  exact buildAux_chunksPreserved_fwd maxBuild _ _ 0 k c1 hu

lemma unload_build_near (w1 : HousingWorld) (pcx pcz limit : ℤ) (maxBuild : ℕ)
    (k : ChunkKey) (c2 : Chunk)
    (hk2 : ((unloadPhase w1 pcx pcz limit).buildChunks maxBuild).chunks k = some c2) :
    ¬farChunk c2 pcx pcz limit := by
  obtain ⟨c1, hc1, e1, e2, e3⟩ := buildAux_chunksPreserved_rev maxBuild _ _ 0 k c2 hk2
  rw [unloadPhase_chunks] at hc1
  cases hg : w1.chunks k with
  | none =>
    rw [hg] at hc1
    exact absurd hc1 (by simp)
  | some c0 =>
    rw [hg] at hc1
    change (if farChunk c0 pcx pcz limit then none else some c0) = some c1 at hc1
    by_cases hfar : farChunk c0 pcx pcz limit
    · rw [if_pos hfar] at hc1
      exact absurd hc1 (by simp)
    · rw [if_neg hfar] at hc1
      have hcc : c0 = c1 := Option.some.inj hc1
      subst hcc
      rw [farChunk_congr c0 c2 pcx pcz limit e1.symm e3.symm]
      exact hfar

lemma unload_build_far (w1 : HousingWorld) (pcx pcz limit : ℤ) (maxBuild : ℕ)
    (k : ChunkKey) (c1 : Chunk) (hc1 : w1.chunks k = some c1)
    (hfar : farChunk c1 pcx pcz limit) :
    ((unloadPhase w1 pcx pcz limit).buildChunks maxBuild).chunks k = none ∧
      k ∉ ((unloadPhase w1 pcx pcz limit).buildChunks maxBuild).dirtyChunks := by
  have hu : (unloadPhase w1 pcx pcz limit).chunks k = none := by
    rw [unloadPhase_chunks, hc1]
    show (if farChunk c1 pcx pcz limit then none else some c1) = none
    rw [if_pos hfar]
  constructor
  · cases hfin : ((unloadPhase w1 pcx pcz limit).buildChunks maxBuild).chunks k with
    | none => rfl
    | some c2 =>
      obtain ⟨c1b, hc1b, _, _, _⟩ := buildAux_chunksPreserved_rev maxBuild _ _ 0 k c2 hfin
      rw [hu] at hc1b
      exact absurd hc1b (by simp)
  · intro hmem
    have hsub := buildAux_dirty_sub maxBuild
      (unloadPhase w1 pcx pcz limit).dirtyChunks (unloadPhase w1 pcx pcz limit) 0 rfl k hmem
    rw [unloadPhase_dirtyChunks, List.mem_filter] at hsub
    have hpred := hsub.2
    rw [hc1] at hpred
    simp only [decide_eq_true_eq] at hpred
    exact hpred hfar

/-- C9: an `update` call never unloads a loaded chunk within Chebyshev
distance `renderDistance + 3` of the player column (in particular one at
distance `renderDistance + 1` is within the limit), and after the call
every loaded chunk is within that limit and every previously loaded chunk
beyond it has been removed from both the chunk map and the dirty set. -/
theorem C9_unload_hysteresis (w : HousingWorld) (playerX playerZ : ℚ)
    (g : WorldGenerator) (renderDistance maxGen maxBuild : ℕ)
    (hok : ∀ e ∈ g.structures, StructureOK e.structureFn) :
    (∀ k c, w.chunks k = some c →
        ¬farChunk c ⌊playerX / 32⌋ ⌊playerZ / 32⌋ ((renderDistance : ℤ) + 3) →
        ∃ c2, (w.update playerX playerZ g renderDistance maxGen maxBuild).chunks k = some c2 ∧
          c2.x = c.x ∧ c2.y = c.y ∧ c2.z = c.z) ∧
    (∀ (c : Chunk), chebDist (c.x, c.z) (⌊playerX / 32⌋, ⌊playerZ / 32⌋) = renderDistance + 1 →
        ¬farChunk c ⌊playerX / 32⌋ ⌊playerZ / 32⌋ ((renderDistance : ℤ) + 3)) ∧
    (∀ k c2, (w.update playerX playerZ g renderDistance maxGen maxBuild).chunks k = some c2 →
        ¬farChunk c2 ⌊playerX / 32⌋ ⌊playerZ / 32⌋ ((renderDistance : ℤ) + 3)) ∧
    (∀ k c, w.chunks k = some c →
        farChunk c ⌊playerX / 32⌋ ⌊playerZ / 32⌋ ((renderDistance : ℤ) + 3) →
        (w.update playerX playerZ g renderDistance maxGen maxBuild).chunks k = none ∧
          k ∉ (w.update playerX playerZ g renderDistance maxGen maxBuild).dirtyChunks) := by
  have hupdate : w.update playerX playerZ g renderDistance maxGen maxBuild =
      ((unloadPhase (genLoop g maxGen w 0
          (ringList ⌊playerX / 32⌋ ⌊playerZ / 32⌋ renderDistance))
        ⌊playerX / 32⌋ ⌊playerZ / 32⌋ ((renderDistance : ℤ) + 3)).buildChunks maxBuild) := by
    unfold HousingWorld.update
    norm_num
  have hgen := genLoop_chunksPreserved g maxGen hok
    (ringList ⌊playerX / 32⌋ ⌊playerZ / 32⌋ renderDistance) w 0
  refine ⟨?_, ?_, ?_, ?_⟩
  · intro k c hk hnear
    obtain ⟨c1, hc1, e1, e2, e3⟩ := hgen k c hk
    have hnear1 : ¬farChunk c1 ⌊playerX / 32⌋ ⌊playerZ / 32⌋ ((renderDistance : ℤ) + 3) := by
      rw [farChunk_congr c c1 _ _ _ e1 e3]
      exact hnear
    rw [hupdate]
    obtain ⟨c2, hc2, f1, f2, f3⟩ := unload_build_keep _ _ _ _ maxBuild k c1 hc1 hnear1
    exact ⟨c2, hc2, by rw [f1, e1], by rw [f2, e2], by rw [f3, e3]⟩
  · intro c hd
    unfold chebDist at hd
    unfold farChunk
    rw [max_eq_iff] at hd
    rw [Int.abs_eq_natAbs, Int.abs_eq_natAbs]
    omega
  · intro k c2 hk2
    rw [hupdate] at hk2
    exact unload_build_near _ _ _ _ maxBuild k c2 hk2
  · intro k c hk hfar
    obtain ⟨c1, hc1, e1, e2, e3⟩ := hgen k c hk
    have hfar1 : farChunk c1 ⌊playerX / 32⌋ ⌊playerZ / 32⌋ ((renderDistance : ℤ) + 3) := by
      rw [farChunk_congr c c1 _ _ _ e1 e3]
      exact hfar
    rw [hupdate]
    exact unload_build_far _ _ _ _ maxBuild k c1 hc1 hfar1

/-- Witness for C9 at a concrete store holding one chunk at the player
column. -/
theorem C9_witness :
    ∃ c2, ((HousingWorld.mk
        (fun k => if k = ((0, 0, 0) : ChunkKey) then some ⟨0, 0, 0, fun _ => 0, false⟩ else none)
        [] (fun _ => true)).update 0 0 (mkGenerator 12345) 0 4 2).chunks (0, 0, 0) = some c2 ∧
      c2.x = (0 : ℤ) ∧ c2.y = (0 : ℤ) ∧ c2.z = (0 : ℤ) := by
  have h := (C9_unload_hysteresis (HousingWorld.mk
      (fun k => if k = ((0, 0, 0) : ChunkKey) then some ⟨0, 0, 0, fun _ => 0, false⟩ else none)
      [] (fun _ => true)) 0 0 (mkGenerator 12345) 0 4 2 ?_).1 (0, 0, 0)
      ⟨0, 0, 0, fun _ => 0, false⟩ rfl (by norm_num [farChunk])
  · exact h
  · intro e he
    rw [show (mkGenerator 12345).structures = [⟨OakTree.generate, 3⟩] from rfl] at he
    rw [List.mem_singleton] at he
    subst he
    exact oakTree_OK


-- ── C3: terrain classification ──

lemma fillColumnN_at (lx lz : ℕ) (hlx : lx < 32) (hlz : lz < 32)
    (cyMin surface : ℤ) (b : Bool) (blocks : ℕ → ℕ) :
    ∀ (n : ℕ), n ≤ 32 → ∀ (lx2 ly2 lz2 : ℕ), lx2 < 32 → ly2 < 32 → lz2 < 32 →
      fillColumnN lx lz cyMin surface b blocks n (blockIndex lx2 ly2 lz2) =
        (if lx2 = lx ∧ lz2 = lz ∧ ly2 < n then
          terrainBlockFor (cyMin + ly2) surface b
        else blocks (blockIndex lx2 ly2 lz2)) := by
  intro n
  induction n with
  | zero =>
    intro _ lx2 ly2 lz2 _ _ _
    rw [if_neg (by omega)]
    rfl
  | succ m ih =>
    intro hn lx2 ly2 lz2 h1 h2 h3
    show (if blockIndex lx2 ly2 lz2 = blockIndex lx m lz then
        terrainBlockFor (cyMin + m) surface b
      else fillColumnN lx lz cyMin surface b blocks m (blockIndex lx2 ly2 lz2)) = _
    by_cases heq : blockIndex lx2 ly2 lz2 = blockIndex lx m lz
    · rw [if_pos heq]
      have hb := blockIndex_inj lx2 ly2 lz2 lx m lz
        (by omega) (by omega) (by omega) (by omega) (by omega) (by omega) heq
      have e1 : lx2 = lx := by omega
      have e2 : ly2 = m := by omega
      have e3 : lz2 = lz := by omega
      rw [if_pos ⟨e1, e3, by omega⟩, e2]
    · rw [if_neg heq]
      rw [ih (by omega) lx2 ly2 lz2 h1 h2 h3]
      by_cases hc : lx2 = lx ∧ lz2 = lz ∧ ly2 < m
      · rw [if_pos hc, if_pos ⟨hc.1, hc.2.1, by omega⟩]
      · rw [if_neg hc, if_neg ?_]
        intro hc2
        apply hc
        refine ⟨hc2.1, hc2.2.1, ?_⟩
        have hym : ly2 ≠ m := by
          intro hcon
          apply heq
          subst hcon
          rw [hc2.1, hc2.2.1]
        omega

lemma fillLayerColumn_at (lx lz : ℕ) (hlx : lx < 32) (hlz : lz < 32)
    (cyMin surface : ℤ) (b : Bool) (blocks : ℕ → ℕ)
    (lx2 ly2 lz2 : ℕ) (h1 : lx2 < 32) (h2 : ly2 < 32) (h3 : lz2 < 32) :
    fillLayerColumn lx lz cyMin surface b blocks (blockIndex lx2 ly2 lz2) =
      (if lx2 = lx ∧ lz2 = lz ∧ cyMin + (ly2 : ℤ) ≤ surface then
        terrainBlockFor (cyMin + ly2) surface b
      else blocks (blockIndex lx2 ly2 lz2)) := by
  unfold fillLayerColumn
  by_cases hskip : surface < cyMin
  · rw [if_pos hskip, if_neg (by omega)]
  · rw [if_neg hskip]
    rw [fillColumnN_at lx lz hlx hlz cyMin surface b blocks
      (min surface (cyMin + 31) + 1 - cyMin).toNat (by omega) lx2 ly2 lz2 h1 h2 h3]
    by_cases hc : lx2 = lx ∧ lz2 = lz ∧ cyMin + (ly2 : ℤ) ≤ surface
    · rw [if_pos ⟨hc.1, hc.2.1, by omega⟩, if_pos hc]
    · rw [if_neg ?_, if_neg hc]
      intro hc2
      apply hc
      exact ⟨hc2.1, hc2.2.1, by omega⟩

lemma foldl_max_le_init (lx0 : ℕ) (hm : ℕ → ℕ → ℤ) :
    ∀ (L : List ℕ) (m : ℤ), m ≤ L.foldl (fun m2 lz => max m2 (hm lx0 lz)) m := by
  intro L
  induction L with
  | nil => intro m; exact le_refl m
  | cons z L2 ih =>
    intro m
    calc m ≤ max m (hm lx0 z) := le_max_left _ _
    _ ≤ L2.foldl (fun m2 lz => max m2 (hm lx0 lz)) (max m (hm lx0 z)) := ih _

lemma foldl_max_mem (lx0 : ℕ) (hm : ℕ → ℕ → ℤ) :
    ∀ (L : List ℕ) (m : ℤ) (lz : ℕ), lz ∈ L →
      hm lx0 lz ≤ L.foldl (fun m2 lz2 => max m2 (hm lx0 lz2)) m := by
  intro L
  induction L with
  | nil => intro m lz h; exact absurd h (List.not_mem_nil lz)
  | cons z L2 ih =>
    intro m lz h
    rcases List.mem_cons.mp h with h1 | h1
    · subst h1
      calc hm lx0 lz ≤ max m (hm lx0 lz) := le_max_right _ _
      _ ≤ _ := foldl_max_le_init lx0 hm L2 _
    · exact ih _ lz h1

lemma outer_max_le_init (hm : ℕ → ℕ → ℤ) :
    ∀ (L : List ℕ) (m : ℤ),
      m ≤ L.foldl (fun m2 lx => (List.range 32).foldl (fun m3 lz => max m3 (hm lx lz)) m2) m := by
  intro L
  induction L with
  | nil => intro m; exact le_refl m
  | cons x L2 ih =>
    intro m
    calc m ≤ (List.range 32).foldl (fun m3 lz => max m3 (hm x lz)) m :=
      foldl_max_le_init x hm (List.range 32) m
    _ ≤ _ := ih _

lemma le_maxHeightOf (hm : ℕ → ℕ → ℤ) (lx lz : ℕ) (hlx : lx < 32) (hlz : lz < 32) :
    hm lx lz ≤ maxHeightOf hm := by
  unfold maxHeightOf
  have hsplit : ∀ (L : List ℕ) (m : ℤ), lx ∈ L →
      hm lx lz ≤ L.foldl (fun m2 lx2 => (List.range 32).foldl
        (fun m3 lz2 => max m3 (hm lx2 lz2)) m2) m := by
    intro L
    induction L with
    | nil => intro m h; exact absurd h (List.not_mem_nil lx)
    | cons x L2 ih =>
      intro m h
      rcases List.mem_cons.mp h with h1 | h1
      · subst h1
        calc hm lx lz ≤ (List.range 32).foldl (fun m3 lz2 => max m3 (hm lx lz2)) m :=
          foldl_max_mem lx hm (List.range 32) m lz (List.mem_range.mpr hlz)
        _ ≤ _ := outer_max_le_init hm L2 _
      · exact ih _ h1
  exact hsplit (List.range 32) 0 (List.mem_range.mpr hlx)


lemma innerFold_at (hm : ℕ → ℕ → ℤ) (cyMin seaLevel : ℤ) (lx0 : ℕ) (hlx0 : lx0 < 32) :
    ∀ (L : List ℕ), (∀ z ∈ L, z < 32) → ∀ (b : ℕ → ℕ) (lx2 ly2 lz2 : ℕ),
      lx2 < 32 → ly2 < 32 → lz2 < 32 →
      (L.foldl (fun b2 lz => fillLayerColumn lx0 lz cyMin (hm lx0 lz)
          (decide (hm lx0 lz ≤ seaLevel + 2)) b2) b) (blockIndex lx2 ly2 lz2) =
        (if lx2 = lx0 ∧ lz2 ∈ L ∧ cyMin + (ly2 : ℤ) ≤ hm lx0 lz2 then
          terrainBlockFor (cyMin + ly2) (hm lx0 lz2) (decide (hm lx0 lz2 ≤ seaLevel + 2))
        else b (blockIndex lx2 ly2 lz2)) := by
  intro L
  induction L with
  | nil =>
    intro _ b lx2 ly2 lz2 h1 h2 h3
    rw [if_neg (by simp)]
    rfl
  | cons z L2 ih =>
    intro hL b lx2 ly2 lz2 h1 h2 h3
    rw [List.foldl_cons]
    rw [ih (fun z2 hz2 => hL z2 (List.mem_cons_of_mem z hz2)) _ lx2 ly2 lz2 h1 h2 h3]
    by_cases hc1 : lx2 = lx0 ∧ lz2 ∈ L2 ∧ cyMin + (ly2 : ℤ) ≤ hm lx0 lz2
    · rw [if_pos hc1, if_pos ⟨hc1.1, List.mem_cons_of_mem z hc1.2.1, hc1.2.2⟩]
    · rw [if_neg hc1]
      rw [fillLayerColumn_at lx0 z hlx0 (hL z (List.mem_cons_self z L2)) cyMin
        (hm lx0 z) (decide (hm lx0 z ≤ seaLevel + 2)) b lx2 ly2 lz2 h1 h2 h3]
      by_cases hc2 : lx2 = lx0 ∧ lz2 = z ∧ cyMin + (ly2 : ℤ) ≤ hm lx0 z
      · obtain ⟨e1, e2, e3⟩ := hc2
        subst e2
        rw [if_pos ⟨e1, rfl, e3⟩, if_pos ⟨e1, List.mem_cons_self lz2 L2, e3⟩]
      · rw [if_neg hc2, if_neg ?_]
        rintro ⟨d1, d2, d3⟩
        rcases List.mem_cons.mp d2 with d4 | d4
        · subst d4
          exact hc2 ⟨d1, rfl, d3⟩
        · exact hc1 ⟨d1, d4, d3⟩

lemma fillLayer_at (c : Chunk) (hm : ℕ → ℕ → ℤ) (cyMin seaLevel : ℤ)
    (lx2 ly2 lz2 : ℕ) (h1 : lx2 < 32) (h2 : ly2 < 32) (h3 : lz2 < 32) :
    (fillLayer c hm cyMin seaLevel).blocks (blockIndex lx2 ly2 lz2) =
      (if cyMin + (ly2 : ℤ) ≤ hm lx2 lz2 then
        terrainBlockFor (cyMin + ly2) (hm lx2 lz2) (decide (hm lx2 lz2 ≤ seaLevel + 2))
      else c.blocks (blockIndex lx2 ly2 lz2)) := by
  have houter : ∀ (Lx : List ℕ), (∀ x ∈ Lx, x < 32) → ∀ (b : ℕ → ℕ),
      (Lx.foldl (fun b0 lx => (List.range 32).foldl
        (fun b2 lz => fillLayerColumn lx lz cyMin (hm lx lz)
          (decide (hm lx lz ≤ seaLevel + 2)) b2) b0) b) (blockIndex lx2 ly2 lz2) =
        (if lx2 ∈ Lx ∧ cyMin + (ly2 : ℤ) ≤ hm lx2 lz2 then
          terrainBlockFor (cyMin + ly2) (hm lx2 lz2) (decide (hm lx2 lz2 ≤ seaLevel + 2))
        else b (blockIndex lx2 ly2 lz2)) := by
    intro Lx
    induction Lx with
    | nil =>
      intro _ b
      rw [if_neg (by simp)]
      rfl
    | cons x Lx2 ih =>
      intro hLx b
      rw [List.foldl_cons]
      rw [ih (fun x2 hx2 => hLx x2 (List.mem_cons_of_mem x hx2)) _]
      by_cases hc1 : lx2 ∈ Lx2 ∧ cyMin + (ly2 : ℤ) ≤ hm lx2 lz2
      · rw [if_pos hc1, if_pos ⟨List.mem_cons_of_mem x hc1.1, hc1.2⟩]
      · rw [if_neg hc1]
        rw [innerFold_at hm cyMin seaLevel x (hLx x (List.mem_cons_self x Lx2))
          (List.range 32) (fun z hz => List.mem_range.mp hz) b lx2 ly2 lz2 h1 h2 h3]
        by_cases hc2 : lx2 = x ∧ cyMin + (ly2 : ℤ) ≤ hm lx2 lz2
        · obtain ⟨e1, e2⟩ := hc2
          subst e1
          rw [if_pos ⟨rfl, List.mem_range.mpr h3, e2⟩,
            if_pos ⟨List.mem_cons_self lx2 Lx2, e2⟩]
        · rw [if_neg ?_, if_neg ?_]
          · rintro ⟨d1, d2⟩
            rcases List.mem_cons.mp d1 with d3 | d3
            · exact hc2 ⟨d3, d2⟩
            · exact hc1 ⟨d3, d2⟩
          · rintro ⟨d1, _, d3⟩
            refine hc2 ⟨d1, ?_⟩
            rw [d1]
            exact d3
  have hfl : (fillLayer c hm cyMin seaLevel).blocks =
      (List.range 32).foldl (fun b0 lx => (List.range 32).foldl
        (fun b2 lz => fillLayerColumn lx lz cyMin (hm lx lz)
          (decide (hm lx lz ≤ seaLevel + 2)) b2) b0) c.blocks := rfl
  rw [hfl, houter (List.range 32) (fun x hx => List.mem_range.mp hx) c.blocks]
  by_cases hc : cyMin + (ly2 : ℤ) ≤ hm lx2 lz2
  · rw [if_pos ⟨List.mem_range.mpr h1, hc⟩, if_pos hc]
  · rw [if_neg ?_, if_neg hc]
    rintro ⟨_, d2⟩
    exact hc d2


lemma getOrCreateChunk_fst_of_none (w : HousingWorld) (cx cy cz : ℤ)
    (h : w.chunks (cx, cy, cz) = none) :
    (w.getOrCreateChunk cx cy cz).1 = (⟨cx, cy, cz, fun _ => 0, false⟩ : Chunk) := by
  unfold HousingWorld.getOrCreateChunk
  rw [h]

lemma terrainLayerStep_other (seaLevel cx cz : ℤ) (hm : ℕ → ℕ → ℤ)
    (w : HousingWorld) (cy : ℕ) (k : ChunkKey) (hk : k ≠ (cx, (cy : ℤ), cz)) :
    (terrainLayerStep seaLevel cx cz hm w cy).chunks k = w.chunks k := by
  unfold terrainLayerStep
  by_cases h : (32 : ℤ) * cy > maxHeightOf hm
  · rw [if_pos h]
  · rw [if_neg h]
    simp only [HousingWorld.markDirtyKey, HousingWorld.putChunk]
    rw [if_neg hk, if_neg hk]
    rw [getOrCreateChunk_chunks]
    rw [if_neg hk]

lemma terrainLayerStep_same_none (seaLevel cx cz : ℤ) (hm : ℕ → ℕ → ℤ)
    (w : HousingWorld) (cy : ℕ) (hnone : w.chunks (cx, (cy : ℤ), cz) = none) :
    (terrainLayerStep seaLevel cx cz hm w cy).chunks (cx, (cy : ℤ), cz) =
      (if (32 : ℤ) * cy > maxHeightOf hm then none
      else some { fillLayer (⟨cx, (cy : ℤ), cz, fun _ => 0, false⟩ : Chunk) hm
          (32 * cy) seaLevel with isDirty := true }) := by
  unfold terrainLayerStep
  by_cases h : (32 : ℤ) * cy > maxHeightOf hm
  · rw [if_pos h, if_pos h]
    exact hnone
  · rw [if_neg h, if_neg h]
    simp only [HousingWorld.markDirtyKey, HousingWorld.putChunk]
    rw [getOrCreateChunk_fst_of_none w cx cy cz hnone]
    simp

lemma terrainFold_other (seaLevel cx cz : ℤ) (hm : ℕ → ℕ → ℤ) (cyR : ℕ) :
    ∀ (L : List ℕ), (∀ c ∈ L, c ≠ cyR) → ∀ (w : HousingWorld),
      (L.foldl (terrainLayerStep seaLevel cx cz hm) w).chunks (cx, (cyR : ℤ), cz) =
        w.chunks (cx, (cyR : ℤ), cz) := by
  intro L
  induction L with
  | nil => intro _ w; rfl
  | cons cy L2 ih =>
    intro hL w
    rw [List.foldl_cons]
    rw [ih (fun c hc => hL c (List.mem_cons_of_mem cy hc)) _]
    apply terrainLayerStep_other
    intro hcontra
    apply hL cy (List.mem_cons_self cy L2)
    have h2 : ((cyR : ℤ), cz) = ((cy : ℤ), cz) := congrArg Prod.snd hcontra
    have h3 : (cyR : ℤ) = (cy : ℤ) := congrArg Prod.fst h2
    omega

lemma terrainFold_chunks (seaLevel cx cz : ℤ) (hm : ℕ → ℕ → ℤ) (cyR : ℕ) :
    ∀ (L : List ℕ), L.Nodup → ∀ (w : HousingWorld),
      w.chunks (cx, (cyR : ℤ), cz) = none →
      (L.foldl (terrainLayerStep seaLevel cx cz hm) w).chunks (cx, (cyR : ℤ), cz) =
        (if cyR ∈ L ∧ ¬((32 : ℤ) * cyR > maxHeightOf hm) then
          some { fillLayer (⟨cx, (cyR : ℤ), cz, fun _ => 0, false⟩ : Chunk) hm
            (32 * cyR) seaLevel with isDirty := true }
        else none) := by
  intro L
  induction L with
  | nil =>
    intro _ w hw
    rw [if_neg (by simp)]
    exact hw
  | cons cy L2 ih =>
    intro hnodup w hw
    rw [List.foldl_cons]
    rcases List.nodup_cons.mp hnodup with ⟨hnotin, hnodup2⟩
    by_cases hceq : cy = cyR
    · subst hceq
      have hother : ∀ c ∈ L2, c ≠ cy := by
        intro c hc hcontra
        subst hcontra
        exact hnotin hc
      rw [terrainFold_other seaLevel cx cz hm cy L2 hother _]
      rw [terrainLayerStep_same_none seaLevel cx cz hm w cy hw]
      by_cases hskip : (32 : ℤ) * cy > maxHeightOf hm
      · rw [if_pos hskip, if_neg (by
          rintro ⟨_, h2⟩
          exact h2 hskip)]
      · rw [if_neg hskip, if_pos ⟨List.mem_cons_self cy L2, hskip⟩]
    · have hstep := terrainLayerStep_other seaLevel cx cz hm w cy (cx, (cyR : ℤ), cz) (by
        intro hcontra
        apply hceq
        have h2 : ((cyR : ℤ), cz) = ((cy : ℤ), cz) := congrArg Prod.snd hcontra
        have h3 : (cyR : ℤ) = (cy : ℤ) := congrArg Prod.fst h2
        omega)
      rw [ih hnodup2 _ (by rw [hstep]; exact hw)]
      by_cases hc : cyR ∈ L2 ∧ ¬((32 : ℤ) * cyR > maxHeightOf hm)
      · rw [if_pos hc, if_pos ⟨List.mem_cons_of_mem cy hc.1, hc.2⟩]
      · rw [if_neg hc, if_neg ?_]
        rintro ⟨d1, d2⟩
        rcases List.mem_cons.mp d1 with d3 | d3
        · exact hceq d3.symm
        · exact hc ⟨d3, d2⟩

lemma chunkOf_block (c : ℤ) (l : ℕ) (hl : l < 32) : chunkOf (32 * c + l) = c := by
  unfold chunkOf
  rw [fdiv32_eq]
  omega

lemma localOf_block (c : ℤ) (l : ℕ) (hl : l < 32) : localOf (32 * c + l) = l := by
  unfold localOf chunkOf
  rw [fdiv32_eq]
  omega


/-- C3: the terrain fill loop of `generateChunk` (the `terrainPhase` it
invokes on the per-column heightmap) follows the fixed vertical
classification rule: on a fresh column, reading back any cell `(lx, wy, lz)`
of the column after the fill yields `terrainBlockFor wy surface isBeach`
(bedrock at `wy = 0`, stone strictly below `surface - 4`, sand if beach else
dirt strictly below `surface`, sand if beach else grass at the surface)
whenever `wy ≤ surface`, and the empty block `0` for every `wy > surface` —
no block is ever written above the surface. -/
theorem C3_terrain_classification (w : HousingWorld) (hm : ℕ → ℕ → ℤ)
    (seaLevel cx cz : ℤ) (lx lz : ℕ) (hlx : lx < 32) (hlz : lz < 32)
    (wy : ℤ) (hwy0 : 0 ≤ wy) (hwy1 : wy < 256)
    (hfresh : ∀ cy : ℕ, cy < 8 → w.chunks (cx, (cy : ℤ), cz) = none) :
    ((terrainPhase seaLevel cx cz hm w).get (32 * cx + lx) wy (32 * cz + lz)).1 =
      (if wy ≤ hm lx lz then
        terrainBlockFor wy (hm lx lz) (decide (hm lx lz ≤ seaLevel + 2))
      else 0) := by
  have hinb : ¬(wy < 0 ∨ 256 ≤ wy) := by omega
  rw [get_val _ _ _ _ hinb]
  rw [chunkOf_block cx lx hlx, chunkOf_block cz lz hlz]
  rw [localOf_block cx lx hlx, localOf_block cz lz hlz]
  have hcyN : chunkOf wy = ((wy.toNat / 32 : ℕ) : ℤ) := by
    unfold chunkOf
    rw [fdiv32_eq]
    omega
  have hcyN8 : wy.toNat / 32 < 8 := by omega
  rw [hcyN]
  unfold terrainPhase
  rw [terrainFold_chunks seaLevel cx cz hm (wy.toNat / 32) (List.range 8)
    (List.nodup_range 8) w (hfresh _ hcyN8)]
  have hmemrange : wy.toNat / 32 ∈ List.range 8 := List.mem_range.mpr hcyN8
  have hly : localOf wy = ((wy.toNat % 32 : ℕ) : ℤ) := by
    unfold localOf chunkOf
    rw [fdiv32_eq]
    omega
  have hwyeq : (32 : ℤ) * ((wy.toNat / 32 : ℕ) : ℤ) + ((wy.toNat % 32 : ℕ) : ℤ) = wy := by
    omega
  by_cases hskip : (32 : ℤ) * ((wy.toNat / 32 : ℕ) : ℤ) > maxHeightOf hm
  · rw [if_neg (by
      rintro ⟨_, h2⟩
      exact h2 hskip)]
    have hsurf : hm lx lz ≤ maxHeightOf hm := le_maxHeightOf hm lx lz hlx hlz
    rw [if_neg (by omega)]
  · rw [if_pos ⟨hmemrange, hskip⟩]
    show Chunk.getBlock _ (lx : ℤ) (localOf wy) (lz : ℤ) = _
    unfold Chunk.getBlock
    rw [hly]
    show (fillLayer (⟨cx, ((wy.toNat / 32 : ℕ) : ℤ), cz, fun _ => 0, false⟩ : Chunk) hm
        (32 * ((wy.toNat / 32 : ℕ) : ℤ)) seaLevel).blocks
        (blockIndex (lx : ℤ) ((wy.toNat % 32 : ℕ) : ℤ) (lz : ℤ)) = _
    rw [fillLayer_at _ hm _ seaLevel lx (wy.toNat % 32) lz hlx (by omega) hlz]
    by_cases hcond : (32 : ℤ) * ((wy.toNat / 32 : ℕ) : ℤ) +
        ((wy.toNat % 32 : ℕ) : ℤ) ≤ hm lx lz
    · rw [if_pos hcond, if_pos (by omega)]
      rw [hwyeq]
    · rw [if_neg hcond, if_neg (by omega)]

/-- Witness for C3 at a concrete fresh store, heightmap and cell. -/
theorem C3_witness :
    ((terrainPhase 62 0 0 (fun _ _ => 5) emptyWorld).get 3 0 4).1 =
      (if (0 : ℤ) ≤ (5 : ℤ) then
        terrainBlockFor 0 5 (decide ((5 : ℤ) ≤ 62 + 2))
      else 0) := by
  have h := C3_terrain_classification emptyWorld (fun _ _ => 5) 62 0 0 3 4
    (by omega) (by omega) 0 (by omega) (by omega) (fun cy _ => rfl)
  simpa using h

end HousingCraft
